import Mathlib

/-! Clueboard Numeral driver: a shallow embedding of `Numeral.h` / `Numeral.cpp`.

The driver object of the source (`class Numeral`) becomes a record that is
passed explicitly from call to call.  The conventions of the embedding:

* A C `int` is a mathematical integer.  `/` and `%` of C are truncating
  (`Int.tdiv`, `Int.tmod`).  For `number < 10000` every intermediate value of
  `writeNumber` lies in `0..9999`, so no `int` of 16 bits or more overflows.
* A two-dimensional array `int a[4][29]` is the row-major list of its
  `4 * 29 = 116` cells: `a[n][c]` is cell `29 * n + c`.
* A subscript outside the declared bounds of an array is undefined behaviour.
  When the value read is used as an index, a condition or a stored value, or
  when it is a store, the operation faults (`none`).
* `_i2cWrite` walks a pointer over `num` successive `int`s of an array.  Each
  value it hands to `Wire.write` is logged; a value fetched past the end of
  the array object is logged as `none` (indeterminate).
* `sizeof(int)` is a constant of the target platform (2 on AVR boards, 4 on
  ARM and ESP boards).  It is a parameter `sizeofInt` of every operation
  that evaluates a `sizeof`.
* The two-wire bus (`Wire`) is a log of the transmissions issued so far; the
  result of `Wire.endTransmission()` during discovery is given by a function
  `ack` from bus addresses to booleans.  The log records the `int` handed to
  `Wire.write`, before the bus library narrows it to a byte.  `Wire.begin()`
  changes nothing that the driver observes and is left out.
-/

namespace Clueboard

/-! ## Constants of `Numeral.h` -/

def numeralAddressStart : Int := 0x3b
def numeralAddressEnd : Int := 0x3f

def ledRegisterStart : Int := 0x2A
def ledRegisterEnd : Int := 0x45
def pwmRegisterStart : Int := 0x05
def pwmRegisterEnd : Int := 0x20
def pwmRegisterUpdate : Int := 0x25
def shutdownRegister : Int := 0x00
def globalControlRegister : Int := 0x4A
def pwmFrequencyRegister : Int := 0x4B
def resetRegister : Int := 0x4F

/-- LED to numeral segment map: for each segment the index of its red, green and blue LED. -/
def segmentMap : List (List Int) :=
  [ [17, 16, 15],  -- A
    [22, 21, 20],  -- B
    [26, 27, 28],  -- C
    [1,  2,  3],   -- D
    [4,  5,  6],   -- E
    [9,  7,  8],   -- F
    [14, 13, 12],  -- G
    [23, 24, 25] ] -- DP

def segmentA : Int := 0
def segmentB : Int := 1
def segmentC : Int := 2
def segmentD : Int := 3
def segmentE : Int := 4
def segmentF : Int := 5
def segmentG : Int := 6
def segmentDP : Int := 7

/-- Map of digits to segments a..g; row 10 is the blank digit. -/
def digitSegments : List (List Int) :=
  [ [1, 1, 1, 1, 1, 1, 0],  -- 0
    [0, 1, 1, 0, 0, 0, 0],  -- 1
    [1, 1, 0, 1, 1, 0, 1],  -- 2
    [1, 1, 1, 1, 0, 0, 1],  -- 3
    [0, 1, 1, 0, 0, 1, 1],  -- 4
    [1, 0, 1, 1, 0, 1, 1],  -- 5
    [1, 0, 1, 1, 1, 1, 1],  -- 6
    [1, 1, 1, 0, 0, 0, 0],  -- 7
    [1, 1, 1, 1, 1, 1, 1],  -- 8
    [1, 1, 1, 1, 0, 1, 1],  -- 9
    [0, 0, 0, 0, 0, 0, 0] ] -- blank

/-! ## Gamma table of `Numeral.cpp` -/

/-- Gamma correction table to make the LED brightness scale more linearly. -/
def gamma8 : List Int :=
  [   0,  0,  0,  0,  0,  0,  0,  0,  0,  0,  0,  0,  0,  0,  0,  0,
      0,  0,  0,  0,  0,  0,  0,  0,  0,  0,  0,  0,  1,  1,  1,  1,
      1,  1,  1,  1,  1,  1,  1,  1,  1,  2,  2,  2,  2,  2,  2,  2,
      2,  3,  3,  3,  3,  3,  3,  3,  4,  4,  4,  4,  4,  5,  5,  5,
      5,  6,  6,  6,  6,  7,  7,  7,  7,  8,  8,  8,  9,  9,  9, 10,
     10, 10, 11, 11, 11, 12, 12, 13, 13, 13, 14, 14, 15, 15, 16, 16,
     17, 17, 18, 18, 19, 19, 20, 20, 21, 21, 22, 22, 23, 24, 24, 25,
     25, 26, 27, 27, 28, 29, 29, 30, 31, 32, 32, 33, 34, 35, 35, 36,
     37, 38, 39, 39, 40, 41, 42, 43, 44, 45, 46, 47, 48, 49, 50, 50,
     51, 52, 54, 55, 56, 57, 58, 59, 60, 61, 62, 63, 64, 66, 67, 68,
     69, 70, 72, 73, 74, 75, 77, 78, 79, 81, 82, 83, 85, 86, 87, 89,
     90, 92, 93, 95, 96, 98, 99,101,102,104,105,107,109,110,112,114,
    115,117,119,120,122,124,126,127,129,131,133,135,137,138,140,142,
    144,146,148,150,152,154,156,158,160,162,164,167,169,171,173,175,
    177,180,182,184,186,189,191,193,196,198,200,203,205,208,210,213,
    215,218,220,223,225,228,231,233,236,239,241,244,247,249,252,255 ]

/-! ## Checked array access -/

/-- Element `xs[i]` of a one-dimensional `int` array; `none` outside its bounds. -/
def readAt (xs : List Int) (i : Int) : Option Int :=
  if 0 ≤ i then xs[i.toNat]? else none

/-- Element `t[i][j]` of a constant two-dimensional table; `none` when either
subscript is outside its dimension. -/
def readAt2 (t : List (List Int)) (i j : Int) : Option Int :=
  if 0 ≤ i then (t[i.toNat]?).bind (fun row => readAt row j) else none

/-- The platform primitive `pgm_read_byte(&x)` applied to an `int` object `x`:
the byte at the lowest address of `x`, which on the little-endian targets of
the Arduino core is `x` modulo 256. -/
def pgm_read_byte (x : Option Int) : Option Int :=
  x.map (fun v => v % 256)

/-- Element `a[numeral][ch]` of a shadow array `int a[4][29]`. -/
def readCell (a : List Int) (numeral ch : Int) : Option Int :=
  if 0 ≤ numeral ∧ numeral < 4 ∧ 0 ≤ ch ∧ ch < 29 then
    a[29 * numeral.toNat + ch.toNat]?
  else none

/-- The store `a[numeral][ch] = v` into a shadow array `int a[4][29]`. -/
def storeCell (a : List Int) (numeral ch v : Int) : Option (List Int) :=
  if 0 ≤ numeral ∧ numeral < 4 ∧ 0 ≤ ch ∧ ch < 29 then
    some (a.set (29 * numeral.toNat + ch.toNat) v)
  else none

/-- The pointer `a[numeral]` to a row of a shadow array `int a[4][29]`, as the
offset of the row's first cell. -/
def rowPtr (numeral : Int) : Option Nat :=
  if 0 ≤ numeral ∧ numeral < 4 then some (29 * numeral.toNat) else none

/-! ## Driver state -/

/-- One bus transmission: `Wire.beginTransmission(address)`, the arguments of
the `Wire.write` calls that followed, `Wire.endTransmission()`. -/
structure Transmission where
  address : Int
  data : List (Option Int)
deriving DecidableEq

/-- The data members of `class Numeral`, and the log of the bus. -/
structure Numeral where
  count : Int
  i2cAddresses : List Int
  ledState : List Int
  pwmState : List Int
  wire : List Transmission
deriving DecidableEq

/-- One row of `ledState` as the header initialises it. -/
def ledRow : List Int := ledRegisterStart :: List.replicate 28 1

/-- One row of `pwmState` as the header initialises it. -/
def pwmRow : List Int := pwmRegisterStart :: List.replicate 28 0

/-- The automatically instantiated driver `Numeral numeral;`: static storage
zeroes `count` and `i2cAddresses`, the member initialisers fill the shadow
arrays, and nothing has been sent on the bus. -/
def numeral : Numeral where
  count := 0
  i2cAddresses := [0, 0, 0, 0]
  ledState := ledRow ++ ledRow ++ ledRow ++ ledRow
  pwmState := pwmRow ++ pwmRow ++ pwmRow ++ pwmRow
  wire := []

/-- The arrays of the driver have their declared sizes. -/
def Numeral.wf (s : Numeral) : Prop :=
  s.i2cAddresses.length = 4 ∧ s.ledState.length = 116 ∧ s.pwmState.length = 116

instance (s : Numeral) : Decidable s.wf := by
  unfold Numeral.wf; infer_instance

/-- PWM shadow cell `pwmState[numeral][ch]`. -/
def Numeral.pwm (s : Numeral) (numeral ch : Int) : Option Int :=
  readCell s.pwmState numeral ch

/-- LED on/off shadow cell `ledState[numeral][ch]`. -/
def Numeral.led (s : Numeral) (numeral ch : Int) : Option Int :=
  readCell s.ledState numeral ch

/-! ## Operations of `Numeral.cpp` -/

/-- Source `Numeral::addNumeral`: store at `i2cAddresses[count]`, then `count++`. -/
def Numeral.addNumeral (s : Numeral) (i2cAddress : Int) : Option Numeral :=
  if 0 ≤ s.count ∧ s.count < 4 then
    some { s with
      i2cAddresses := s.i2cAddresses.set s.count.toNat i2cAddress
      count := s.count + 1 }
  else none

/-- The loop of `Numeral::i2cScan` with `address = numeralAddressStart + n`:
it runs while `address > numeralAddressStart`, that is while `n > 0`. -/
def Numeral.i2cScanFrom (ack : Int → Bool) : Nat → Numeral → Option Numeral
  | 0, s => some s
  | n + 1, s =>
    let address : Int := numeralAddressStart + (n + 1 : Nat)
    let s1 : Numeral := { s with wire := s.wire ++ [⟨address, []⟩] }
    if ack address then
      (s1.addNumeral address).bind (Numeral.i2cScanFrom ack n)
    else
      Numeral.i2cScanFrom ack n s1

/-- Source `Numeral::i2cScan`: the loop starts at `address = numeralAddressEnd`. -/
def Numeral.i2cScan (ack : Int → Bool) (s : Numeral) : Option Numeral :=
  Numeral.i2cScanFrom ack (numeralAddressEnd - numeralAddressStart).toNat s

/-- Source `Numeral::_i2cWrite`: one transmission to `ICAddress` carrying
`*(data + i)` for `i = 0 .. num - 1`, where the pointer `data` is cell
`offset` of the array object `mem`. -/
def Numeral._i2cWrite (s : Numeral) (ICAddress : Int) (mem : List Int) (offset num : Nat) :
    Numeral :=
  { s with wire := s.wire ++ [⟨ICAddress, (List.range num).map (fun i => mem[offset + i]?)⟩] }

/-- Source `Numeral::_writeRegister`: `cmd` is a local `int[2]` and the length
passed on is `sizeof(cmd)`. -/
def Numeral._writeRegister (sizeofInt : Nat) (s : Numeral) (numeral ICRegister data : Int) :
    Option Numeral :=
  let cmd : List Int := [ICRegister, data]
  (readAt s.i2cAddresses numeral).bind fun a =>
    if a ≠ 0 then some (s._i2cWrite a cmd 0 (2 * sizeofInt)) else some s

/-- Source `Numeral::_updateLED`: the length passed on is `sizeof(ledState[numeral])`. -/
def Numeral._updateLED (sizeofInt : Nat) (s : Numeral) (numeral : Int) : Option Numeral :=
  (readAt s.i2cAddresses numeral).bind fun a =>
    (rowPtr numeral).bind fun p =>
      some (s._i2cWrite a s.ledState p (29 * sizeofInt))

/-- Source `Numeral::_updatePWM`: the length passed on is `sizeof(pwmState[numeral])`. -/
def Numeral._updatePWM (sizeofInt : Nat) (s : Numeral) (numeral : Int) : Option Numeral :=
  (readAt s.i2cAddresses numeral).bind fun a =>
    (rowPtr numeral).bind fun p =>
      (s._i2cWrite a s.pwmState p (29 * sizeofInt))._writeRegister sizeofInt numeral
        pwmRegisterUpdate 0x00

/-- Source `Numeral::power`: the `bool` argument converts to 0 or 1. -/
def Numeral.power (sizeofInt : Nat) (s : Numeral) (numeral : Int) (shutdownState : Bool) :
    Option Numeral :=
  s._writeRegister sizeofInt numeral shutdownRegister (if shutdownState then 1 else 0)

/-- Source `Numeral::update`: `for (numeral = 0; numeral < count; numeral++)`. -/
def Numeral.update (sizeofInt : Nat) (s : Numeral) : Option Numeral :=
  (List.range s.count.toNat).foldlM
    (fun (st : Numeral) (k : Nat) =>
      (st._updateLED sizeofInt (k : Int)).bind fun st1 => st1._updatePWM sizeofInt (k : Int))
    s

/-- Source `Numeral::setup`: scan when the registry is empty, then initialise
each numeral found. -/
def Numeral.setup (sizeofInt : Nat) (ack : Int → Bool) (s : Numeral) : Option Numeral :=
  (if s.count = 0 then s.i2cScan ack else some s).bind fun s0 =>
    (List.range s0.count.toNat).foldlM
      (fun (st : Numeral) (k : Nat) =>
        (st._writeRegister sizeofInt (k : Int) resetRegister 0x00).bind fun st1 =>
        (st1._updatePWM sizeofInt (k : Int)).bind fun st2 =>
        (st2._updateLED sizeofInt (k : Int)).bind fun st3 =>
        (st3._writeRegister sizeofInt (k : Int) pwmFrequencyRegister 1).bind fun st4 =>
        st4.power sizeofInt (k : Int) true)
      s0

/-- Source `Numeral::segment`: three table reads, then three stores of
gamma-corrected values into `pwmState[numeral]`. -/
def Numeral.segment (s : Numeral) (numeral segment r g b : Int) : Option Numeral :=
  (pgm_read_byte (readAt2 segmentMap segment 0)).bind fun pwmR =>
  (pgm_read_byte (readAt2 segmentMap segment 1)).bind fun pwmG =>
  (pgm_read_byte (readAt2 segmentMap segment 2)).bind fun pwmB =>
  (pgm_read_byte (readAt gamma8 r)).bind fun vr =>
  (storeCell s.pwmState numeral pwmR vr).bind fun p1 =>
  (pgm_read_byte (readAt gamma8 g)).bind fun vg =>
  (storeCell p1 numeral pwmG vg).bind fun p2 =>
  (pgm_read_byte (readAt gamma8 b)).bind fun vb =>
  (storeCell p2 numeral pwmB vb).bind fun p3 =>
  some { s with pwmState := p3 }

/-- One iteration of the loop of `Numeral::writeDigit`. -/
def Numeral.writeDigitStep (numeral digit r g b : Int) (s : Numeral) (seg : Int) :
    Option Numeral :=
  (pgm_read_byte (readAt2 digitSegments digit seg)).bind fun lit =>
    if lit ≠ 0 then s.segment numeral seg r g b else s.segment numeral seg 0 0 0

/-- The values `seg` takes in `for (seg = segmentA; seg <= segmentG; seg++)`. -/
def writeDigitSegments : List Int :=
  (List.range (segmentG + 1 - segmentA).toNat).map (fun k => segmentA + (k : Int))

/-- Source `Numeral::writeDigit`: the loop over segments A..G, then `_updatePWM`. -/
def Numeral.writeDigit (sizeofInt : Nat) (s : Numeral) (numeral digit r g b : Int) :
    Option Numeral :=
  (writeDigitSegments.foldlM (Numeral.writeDigitStep numeral digit r g b) s).bind fun s1 =>
    s1._updatePWM sizeofInt numeral

/-- The digit split of `Numeral::writeNumber` (source lines 236 to 262), as
`(thousands, hundreds, tens, ones)`. -/
def writeNumberDigits (number : Int) : Int × Int × Int × Int :=
  if number < 10 then
    (10, 10, 10, number)
  else if number < 100 then
    (10, 10, number.tdiv 10, number.tmod 10)
  else if number < 1000 then
    let hundreds := number.tdiv 100
    (10, hundreds, (number - hundreds * 100).tdiv 10, (number - hundreds * 100).tmod 10)
  else if number < 10000 then
    let thousands := number.tdiv 1000
    let hundreds := (number - thousands * 1000).tdiv 100
    (thousands, hundreds,
      (number - thousands * 1000 - hundreds * 100).tdiv 10,
      (number - thousands * 1000 - hundreds * 100).tmod 10)
  else
    let thousands := number.tmod 10000
    let hundreds := (number - thousands * 1000).tdiv 100
    (thousands, hundreds,
      (number - thousands * 1000 - hundreds * 100).tdiv 10,
      (number - thousands * 1000 - hundreds * 100).tmod 10)

/-- Source `Numeral::writeNumber`: the split, then up to four `writeDigit`
calls whose first argument is the registry entry `i2cAddresses[count - k]`. -/
def Numeral.writeNumber (sizeofInt : Nat) (s : Numeral) (number r g b : Int) : Option Numeral :=
  match writeNumberDigits number with
  | (thousands, hundreds, tens, ones) =>
    (readAt s.i2cAddresses (s.count - 1)).bind fun n1 =>
    (s.writeDigit sizeofInt n1 ones r g b).bind fun s1 =>
    (if s1.count > 1 then
        (readAt s1.i2cAddresses (s1.count - 2)).bind fun n2 =>
          s1.writeDigit sizeofInt n2 tens r g b
      else some s1).bind fun s2 =>
    (if s2.count > 2 then
        (readAt s2.i2cAddresses (s2.count - 3)).bind fun n3 =>
          s2.writeDigit sizeofInt n3 hundreds r g b
      else some s2).bind fun s3 =>
    (if s3.count > 3 then
        (readAt s3.i2cAddresses (s3.count - 4)).bind fun n4 =>
          s3.writeDigit sizeofInt n4 thousands r g b
      else some s3)

/-! ## Vocabulary for the bus log and for sequences of calls -/

/-- The values `_i2cWrite` hands to `Wire.write`: `num` cells of `mem` from cell `offset`. -/
def cellsFrom (mem : List Int) (offset num : Nat) : List (Option Int) :=
  (List.range num).map (fun i => mem[offset + i]?)

/-- Registry entry `i2cAddresses[k]`. -/
def Numeral.addressOf (s : Numeral) (k : Nat) : Int := s.i2cAddresses.getD k 0

/-- The transmission of `_updateLED(k)`. -/
def Numeral.ledWrite (sizeofInt : Nat) (s : Numeral) (k : Nat) : Transmission :=
  ⟨s.addressOf k, cellsFrom s.ledState (29 * k) (29 * sizeofInt)⟩

/-- The first transmission of `_updatePWM(k)`. -/
def Numeral.pwmWrite (sizeofInt : Nat) (s : Numeral) (k : Nat) : Transmission :=
  ⟨s.addressOf k, cellsFrom s.pwmState (29 * k) (29 * sizeofInt)⟩

/-- The transmissions of `_writeRegister(k, reg, v)`: one when the registry
entry is non-zero, none when it is the unset value 0. -/
def Numeral.registerWrite (sizeofInt : Nat) (s : Numeral) (k : Nat) (reg v : Int) :
    List Transmission :=
  if s.addressOf k ≠ 0 then [⟨s.addressOf k, cellsFrom [reg, v] 0 (2 * sizeofInt)⟩] else []

/-- The transmissions of one iteration of the loop of `update`. -/
def Numeral.updateLog (sizeofInt : Nat) (s : Numeral) (k : Nat) : List Transmission :=
  s.ledWrite sizeofInt k :: s.pwmWrite sizeofInt k ::
    s.registerWrite sizeofInt k pwmRegisterUpdate 0

/-- The transmissions of one iteration of the loop of `setup`. -/
def Numeral.setupLog (sizeofInt : Nat) (s : Numeral) (k : Nat) : List Transmission :=
  s.registerWrite sizeofInt k resetRegister 0 ++
    (s.pwmWrite sizeofInt k :: s.registerWrite sizeofInt k pwmRegisterUpdate 0) ++
    (s.ledWrite sizeofInt k :: s.registerWrite sizeofInt k pwmFrequencyRegister 1) ++
    s.registerWrite sizeofInt k shutdownRegister 1

/-- The channels of segments A..G, the ones `writeDigit` stores into. -/
def segmentChannels : List Int := (segmentMap.take 7).flatten

/-- The driver after `addNumeral(0x3e)` and `addNumeral(0x3c)`. -/
def twoNumerals : Numeral :=
  { numeral with count := 2, i2cAddresses := [0x3e, 0x3c, 0, 0] }

/-- A call of the display API, with its arguments. -/
inductive Call where
  | segment (numeral segment r g b : Int)
  | writeDigit (numeral digit r g b : Int)

/-- The arguments of a call are in range: device index 0..3, segment 0..7,
digit 0..10, colour components 0..255. -/
def Call.inRange : Call → Prop
  | .segment n seg r g b =>
    0 ≤ n ∧ n ≤ 3 ∧ 0 ≤ seg ∧ seg ≤ 7 ∧ 0 ≤ r ∧ r ≤ 255 ∧ 0 ≤ g ∧ g ≤ 255 ∧ 0 ≤ b ∧ b ≤ 255
  | .writeDigit n d r g b =>
    0 ≤ n ∧ n ≤ 3 ∧ 0 ≤ d ∧ d ≤ 10 ∧ 0 ≤ r ∧ r ≤ 255 ∧ 0 ≤ g ∧ g ≤ 255 ∧ 0 ≤ b ∧ b ≤ 255

/-- Perform one call on the driver. -/
def Numeral.call (sizeofInt : Nat) (s : Numeral) : Call → Option Numeral
  | .segment n seg r g b => s.segment n seg r g b
  | .writeDigit n d r g b => s.writeDigit sizeofInt n d r g b

/-- Perform a sequence of calls, first to last. -/
def Numeral.run (sizeofInt : Nat) (s : Numeral) (calls : List Call) : Option Numeral :=
  calls.foldlM (Numeral.call sizeofInt) s

/-- Every header cell of the shadow arrays holds its register address and
every PWM channel cell holds a value in 0..255. -/
def Numeral.shadowIntact (s : Numeral) : Prop :=
  ∀ n : Int, 0 ≤ n → n ≤ 3 →
    s.pwm n 0 = some pwmRegisterStart ∧ s.led n 0 = some ledRegisterStart ∧
    ∀ c : Int, 1 ≤ c → c ≤ 28 → ∃ v, s.pwm n c = some v ∧ 0 ≤ v ∧ v ≤ 255

instance : DecidablePred Call.inRange := fun c => by
  cases c <;> unfold Call.inRange <;> infer_instance

/-! ## Auxiliary test used for the gamma table -/

/-- Boolean test that each element of a list is at most its successor. -/
def nondecreasing : List Int → Bool
  | [] => true
  | [_] => true
  | a :: b :: t => decide (a ≤ b) && nondecreasing (b :: t)

/-! ## Facts about the tables -/

set_option maxRecDepth 100000 in
theorem gamma8_length : gamma8.length = 256 := by decide

theorem chain_of_nondecreasing :
    ∀ l : List Int, nondecreasing l = true → List.Chain' (fun a b : Int => a ≤ b) l
  | [], _ => List.chain'_nil
  | [_], _ => List.chain'_singleton _
  | a :: b :: t, h => by
    simp only [nondecreasing, Bool.and_eq_true, decide_eq_true_eq] at h
    exact List.chain'_cons.mpr ⟨h.1, chain_of_nondecreasing (b :: t) h.2⟩

set_option maxRecDepth 100000 in
theorem gamma8_chain : List.Chain' (fun a b : Int => a ≤ b) gamma8 :=
  chain_of_nondecreasing gamma8 (by decide)

set_option maxRecDepth 100000 in
theorem gamma8_range : ∀ v ∈ gamma8, 0 ≤ v ∧ v ≤ 255 := by decide

theorem gamma8_pairwise : List.Pairwise (fun a b : Int => a ≤ b) gamma8 :=
  List.chain'_iff_pairwise.mp gamma8_chain

theorem readAt_gamma8 (r : Int) (h0 : 0 ≤ r) (h1 : r ≤ 255) :
    ∃ v, readAt gamma8 r = some v ∧ 0 ≤ v ∧ v ≤ 255 := by
  have hlt : r.toNat < gamma8.length := by rw [gamma8_length]; omega
  refine ⟨gamma8[r.toNat], ?_, gamma8_range _ (List.getElem_mem _)⟩
  simp [readAt, h0, List.getElem?_eq_getElem hlt]

theorem gamma8_mono (i j : Int) (hi : 0 ≤ i) (hij : i ≤ j) (hj : j ≤ 255) (a b : Int)
    (ha : readAt gamma8 i = some a) (hb : readAt gamma8 j = some b) : a ≤ b := by
  have hil : i.toNat < gamma8.length := by rw [gamma8_length]; omega
  have hjl : j.toNat < gamma8.length := by rw [gamma8_length]; omega
  simp only [readAt, hi, le_trans hi hij, if_true, List.getElem?_eq_getElem hil,
    List.getElem?_eq_getElem hjl, Option.some.injEq] at ha hb
  subst ha; subst hb
  rcases eq_or_lt_of_le hij with h | h
  · subst h; exact le_refl _
  · exact List.pairwise_iff_getElem.mp gamma8_pairwise _ _ hil hjl (by omega)

theorem readAt2_digitSegments (d seg : Int) (hd0 : 0 ≤ d) (hd1 : d ≤ 10) (hs0 : 0 ≤ seg)
    (hs1 : seg ≤ 6) : ∃ v, readAt2 digitSegments d seg = some v ∧ (v = 0 ∨ v = 1) := by
  interval_cases d <;> interval_cases seg <;> exact ⟨_, rfl, by decide⟩

/-- C1 (the code departs from the claim): for a value of 10000 or more the source assigns
`thousands = number % 10000`, the whole remainder rather than its leading
digit, and derives the other digits from it.  At 12345 the split is
(2345, -23326, -5, -5), not (2, 3, 4, 5); at 10007, where every intermediate
value fits a 16-bit `int`, it is (7, 30, 0, 7), not (0, 0, 0, 7). -/
theorem writeNumberDigits_above_9999 :
    writeNumberDigits 12345 = (2345, -23326, -5, -5) ∧
    writeNumberDigits 10007 = (7, 30, 0, 7) := by
  constructor <;> decide

/-- C4: for `0 ≤ value < 10000` the digits computed by `writeNumber` are the
decimal digits of `value`, with the blank sentinel 10 in every position above
the leading digit; each computed digit lies in `0..10`, and for such a digit
every lookup `digitSegments[digit][seg]` with `seg` in A..G is in bounds. -/
theorem writeNumberDigits_below_10000 (value : Int) (h0 : 0 ≤ value) (h1 : value < 10000) :
    writeNumberDigits value =
      (if value ≥ 1000 then value / 1000 else 10,
       if value ≥ 100 then (value / 100) % 10 else 10,
       if value ≥ 10 then (value / 10) % 10 else 10,
       value % 10) ∧
    (∀ d ∈ [(writeNumberDigits value).1, (writeNumberDigits value).2.1,
        (writeNumberDigits value).2.2.1, (writeNumberDigits value).2.2.2],
      0 ≤ d ∧ d ≤ 10 ∧
      ∀ seg : Int, 0 ≤ seg → seg ≤ 6 → (readAt2 digitSegments d seg).isSome = true) := by
  have key : writeNumberDigits value =
      (if value ≥ 1000 then value / 1000 else 10,
       if value ≥ 100 then (value / 100) % 10 else 10,
       if value ≥ 10 then (value / 10) % 10 else 10,
       value % 10) := by
    unfold writeNumberDigits
    by_cases c1 : value < 10
    · have e1 : ¬ value ≥ 1000 := by omega
      have e2 : ¬ value ≥ 100 := by omega
      have e3 : ¬ value ≥ 10 := by omega
      simp only [c1, e1, e2, e3, if_true, if_false]
      congr 3; omega
    · by_cases c2 : value < 100
      · have e1 : ¬ value ≥ 1000 := by omega
        have e2 : ¬ value ≥ 100 := by omega
        have e3 : value ≥ 10 := by omega
        simp only [c1, c2, e1, e2, e3, if_true, if_false]
        rw [Int.tdiv_eq_ediv h0 (by decide), Int.tmod_eq_emod h0 (by decide)]
        congr 3; omega
      · by_cases c3 : value < 1000
        · have e1 : ¬ value ≥ 1000 := by omega
          have e2 : value ≥ 100 := by omega
          have e3 : value ≥ 10 := by omega
          simp only [c1, c2, c3, e1, e2, e3, if_true, if_false]
          rw [Int.tdiv_eq_ediv h0 (by decide)]
          have n1 : 0 ≤ value - value / 100 * 100 := by omega
          rw [Int.tdiv_eq_ediv n1 (by decide), Int.tmod_eq_emod n1 (by decide)]
          have a1 : value / 100 = value / 100 % 10 := by omega
          have a2 : (value - value / 100 * 100) / 10 = value / 10 % 10 := by omega
          have a3 : (value - value / 100 * 100) % 10 = value % 10 := by omega
          rw [a2, a3]; congr 2
        · have e1 : value ≥ 1000 := by omega
          have e2 : value ≥ 100 := by omega
          have e3 : value ≥ 10 := by omega
          have c4 : value < 10000 := h1
          simp only [c1, c2, c3, c4, e1, e2, e3, if_true, if_false]
          rw [Int.tdiv_eq_ediv h0 (by decide)]
          have n1 : 0 ≤ value - value / 1000 * 1000 := by omega
          rw [Int.tdiv_eq_ediv n1 (by decide)]
          have n2 : 0 ≤ value - value / 1000 * 1000 - (value - value / 1000 * 1000) / 100 * 100 := by
            omega
          rw [Int.tdiv_eq_ediv n2 (by decide), Int.tmod_eq_emod n2 (by decide)]
          have a1 : (value - value / 1000 * 1000) / 100 = value / 100 % 10 := by omega
          have a2 : (value - value / 1000 * 1000 - (value - value / 1000 * 1000) / 100 * 100) / 10
              = value / 10 % 10 := by omega
          have a3 : (value - value / 1000 * 1000 - (value - value / 1000 * 1000) / 100 * 100) % 10
              = value % 10 := by omega
          rw [a2, a3, a1]
  refine ⟨key, ?_⟩
  intro d hd
  have hr : 0 ≤ d ∧ d ≤ 10 := by
    rw [key] at hd
    simp only [List.mem_cons, List.mem_singleton, List.not_mem_nil, or_false] at hd
    rcases hd with h | h | h | h <;> subst h <;> omega
  exact ⟨hr.1, hr.2, fun seg hs0 hs1 => by
    obtain ⟨v, hv, _⟩ := readAt2_digitSegments d seg hr.1 hr.2 hs0 hs1
    simp [hv]⟩

theorem writeNumberDigits_below_10000_witness :
    writeNumberDigits 42 = (10, 10, 4, 2) := by
  have h := (writeNumberDigits_below_10000 42 (by decide) (by decide)).1
  simpa using h

/-- C3 (the code departs from the claim): on the driver with no registered
device (`count = 0`) `writeNumber` evaluates `i2cAddresses[count - 1]`, a read
at index -1, and passes the result to `writeDigit` without a guard; the call
is not a no-op but an out-of-bounds access, for every value and colour. -/
theorem writeNumber_empty_registry_faults (sizeofInt : Nat) (n r g b : Int) :
    numeral.count = 0 ∧ numeral.writeNumber sizeofInt n r g b = none := by
  refine ⟨rfl, ?_⟩
  simp [Numeral.writeNumber, numeral, readAt]

set_option maxRecDepth 100000 in
/-- C6: the table `gamma8` has exactly 256 entries, `gamma8[0] = 0`,
`gamma8[255] = 255`, and for `0 ≤ i ≤ j ≤ 255` both entries exist, lie in
`0..255` and satisfy `gamma8[i] ≤ gamma8[j]`. -/
theorem gamma8_monotone (i j : Int) (hi : 0 ≤ i) (hij : i ≤ j) (hj : j ≤ 255) :
    gamma8.length = 256 ∧ readAt gamma8 0 = some 0 ∧ readAt gamma8 255 = some 255 ∧
    ∃ a b, readAt gamma8 i = some a ∧ readAt gamma8 j = some b ∧ a ≤ b ∧ 0 ≤ a ∧ b ≤ 255 := by
  obtain ⟨a, ha, ha0, _⟩ := readAt_gamma8 i hi (by omega)
  obtain ⟨b, hb, _, hb1⟩ := readAt_gamma8 j (by omega) hj
  refine ⟨gamma8_length, ?_, ?_, a, b, ha, hb, gamma8_mono i j hi hij hj a b ha hb, ha0, hb1⟩
  · decide
  · decide

set_option maxRecDepth 100000 in
theorem gamma8_monotone_witness :
    ∃ a b, readAt gamma8 27 = some a ∧ readAt gamma8 28 = some b ∧ a ≤ b ∧ a = 0 ∧ b = 1 := by
  obtain ⟨_, _, _, a, b, ha, hb, hab, _, _⟩ :=
    gamma8_monotone 27 28 (by decide) (by decide) (by decide)
  have ea : readAt gamma8 27 = some 0 := by decide
  have eb : readAt gamma8 28 = some 1 := by decide
  rw [ea] at ha
  rw [eb] at hb
  exact ⟨a, b, by rw [ea, ha], by rw [eb, hb], hab, (Option.some.inj ha).symm,
    (Option.some.inj hb).symm⟩

/-- C7: started on an empty registry, `i2cScan` succeeds for every
acknowledgement function, adds to the bus log exactly the four zero-length
probes of 0x3f, 0x3e, 0x3d, 0x3c in that order, and leaves as the first
`count` registry entries the sub-list of those four addresses that
acknowledged, `count` being its length; the shadow arrays are unchanged. -/
theorem i2cScan_registers_acknowledged (ack : Int → Bool) (s : Numeral)
    (hc : s.count = 0) (hl : s.i2cAddresses.length = 4) :
    ∃ s1, s.i2cScan ack = some s1 ∧
      s1.wire = s.wire ++ [⟨0x3f, []⟩, ⟨0x3e, []⟩, ⟨0x3d, []⟩, ⟨0x3c, []⟩] ∧
      s1.i2cAddresses.take s1.count.toNat = ([0x3f, 0x3e, 0x3d, 0x3c] : List Int).filter ack ∧
      s1.count = ((([0x3f, 0x3e, 0x3d, 0x3c] : List Int).filter ack).length : Int) ∧
      s1.i2cAddresses.length = 4 ∧ s1.ledState = s.ledState ∧ s1.pwmState = s.pwmState := by
  obtain ⟨c, addrs, led, pwm, wire⟩ := s
  simp only at hc hl
  subst hc
  match addrs, hl with
  | [a0, a1, a2, a3], _ =>
    cases h3 : ack 0x3f <;> cases h2 : ack 0x3e <;> cases h1 : ack 0x3d <;>
      cases h0 : ack 0x3c <;>
      simp [Numeral.i2cScan, Numeral.i2cScanFrom, Numeral.addNumeral, numeralAddressEnd,
        numeralAddressStart, h0, h1, h2, h3]

theorem i2cScan_registers_acknowledged_witness :
    ∃ s1, numeral.i2cScan (fun a => a == 0x3c || a == 0x3e) = some s1 ∧
      s1.i2cAddresses.take s1.count.toNat = [0x3e, 0x3c] ∧ s1.count = 2 := by
  obtain ⟨s1, h1, _, h3, h4, _⟩ :=
    i2cScan_registers_acknowledged (fun a => a == 0x3c || a == 0x3e) numeral rfl rfl
  exact ⟨s1, h1, by simpa using h3, by simpa using h4⟩

/-! ## Shadow cells -/

theorem readCell_set (a : List Int) (n c v m k : Int) (hl : a.length = 116)
    (hn0 : 0 ≤ n) (hn1 : n < 4) (hc0 : 0 ≤ c) (hc1 : c < 29) :
    readCell (a.set (29 * n.toNat + c.toNat) v) m k =
      if m = n ∧ k = c then some v else readCell a m k := by
  unfold readCell
  by_cases hin : 0 ≤ m ∧ m < 4 ∧ 0 ≤ k ∧ k < 29
  · rw [if_pos hin, if_pos hin, List.getElem?_set]
    by_cases he : m = n ∧ k = c
    · obtain ⟨rfl, rfl⟩ := he
      have hlt : 29 * m.toNat + k.toNat < a.length := by omega
      simp [hlt]
    · have hne : ¬ (29 * n.toNat + c.toNat = 29 * m.toNat + k.toNat) := by omega
      rw [if_neg hne, if_neg he]
  · rw [if_neg hin, if_neg hin]
    have he : ¬ (m = n ∧ k = c) := by
      rintro ⟨rfl, rfl⟩; exact hin ⟨hn0, hn1, hc0, hc1⟩
    rw [if_neg he]

theorem readAt_mem (xs : List Int) (i c : Int) (h : readAt xs i = some c) : c ∈ xs := by
  unfold readAt at h
  split at h
  · exact List.getElem?_mem h
  · cases h

theorem readAt2_mem (t : List (List Int)) (i j c : Int) (h : readAt2 t i j = some c) :
    ∃ row ∈ t, c ∈ row := by
  unfold readAt2 at h
  split at h
  · cases hrow : t[i.toNat]? with
    | none => rw [hrow] at h; cases h
    | some row =>
      rw [hrow] at h
      exact ⟨row, List.getElem?_mem hrow, readAt_mem row j c h⟩
  · cases h

theorem segmentMap_range (seg i c : Int) (h : readAt2 segmentMap seg i = some c) :
    1 ≤ c ∧ c ≤ 28 := by
  obtain ⟨row, hrow, hc⟩ := readAt2_mem segmentMap seg i c h
  have hall : ∀ row ∈ segmentMap, ∀ c ∈ row, 1 ≤ c ∧ c ≤ 28 := by decide
  exact hall row hrow c hc

theorem segment_eq (s : Numeral) (n seg r g b cr cg cb vr vg vb : Int)
    (hn0 : 0 ≤ n) (hn1 : n < 4)
    (hcr : readAt2 segmentMap seg 0 = some cr) (hcg : readAt2 segmentMap seg 1 = some cg)
    (hcb : readAt2 segmentMap seg 2 = some cb)
    (hvr : readAt gamma8 r = some vr) (hvg : readAt gamma8 g = some vg)
    (hvb : readAt gamma8 b = some vb)
    (br : 0 ≤ vr ∧ vr ≤ 255) (bg : 0 ≤ vg ∧ vg ≤ 255) (bb : 0 ≤ vb ∧ vb ≤ 255) :
    s.segment n seg r g b = some { s with
      pwmState := ((s.pwmState.set (29 * n.toNat + cr.toNat) vr).set
        (29 * n.toNat + cg.toNat) vg).set (29 * n.toNat + cb.toNat) vb } := by
  have r1 := segmentMap_range seg 0 cr hcr
  have r2 := segmentMap_range seg 1 cg hcg
  have r3 := segmentMap_range seg 2 cb hcb
  have e1 : cr % 256 = cr := Int.emod_eq_of_lt (by omega) (by omega)
  have e2 : cg % 256 = cg := Int.emod_eq_of_lt (by omega) (by omega)
  have e3 : cb % 256 = cb := Int.emod_eq_of_lt (by omega) (by omega)
  have e4 : vr % 256 = vr := Int.emod_eq_of_lt (by omega) (by omega)
  have e5 : vg % 256 = vg := Int.emod_eq_of_lt (by omega) (by omega)
  have e6 : vb % 256 = vb := Int.emod_eq_of_lt (by omega) (by omega)
  have q1 : 0 ≤ n ∧ n < 4 ∧ 0 ≤ cr ∧ cr < 29 := ⟨hn0, hn1, by omega, by omega⟩
  have q2 : 0 ≤ n ∧ n < 4 ∧ 0 ≤ cg ∧ cg < 29 := ⟨hn0, hn1, by omega, by omega⟩
  have q3 : 0 ≤ n ∧ n < 4 ∧ 0 ≤ cb ∧ cb < 29 := ⟨hn0, hn1, by omega, by omega⟩
  simp only [Numeral.segment, hcr, hcg, hcb, hvr, hvg, hvb, pgm_read_byte, Option.map_some',
    Option.some_bind, e1, e2, e3, e4, e5, e6, storeCell, if_pos q1, if_pos q2, if_pos q3]

theorem segmentMap_lookup (seg : Int) (h0 : 0 ≤ seg) (h1 : seg ≤ 7) :
    ∃ cr cg cb, readAt2 segmentMap seg 0 = some cr ∧ readAt2 segmentMap seg 1 = some cg ∧
      readAt2 segmentMap seg 2 = some cb ∧ cr ≠ cg ∧ cr ≠ cb ∧ cg ≠ cb := by
  interval_cases seg <;> exact ⟨_, _, _, rfl, rfl, rfl, by decide, by decide, by decide⟩

theorem segment_pwm (s : Numeral) (n seg r g b cr cg cb vr vg vb : Int)
    (hl : s.pwmState.length = 116) (hn0 : 0 ≤ n) (hn1 : n < 4)
    (hcr : readAt2 segmentMap seg 0 = some cr) (hcg : readAt2 segmentMap seg 1 = some cg)
    (hcb : readAt2 segmentMap seg 2 = some cb)
    (hvr : readAt gamma8 r = some vr) (hvg : readAt gamma8 g = some vg)
    (hvb : readAt gamma8 b = some vb)
    (br : 0 ≤ vr ∧ vr ≤ 255) (bg : 0 ≤ vg ∧ vg ≤ 255) (bb : 0 ≤ vb ∧ vb ≤ 255)
    (hd : cr ≠ cg ∧ cr ≠ cb ∧ cg ≠ cb) :
    ∃ s1, s.segment n seg r g b = some s1 ∧ s1.count = s.count ∧
      s1.i2cAddresses = s.i2cAddresses ∧ s1.ledState = s.ledState ∧ s1.wire = s.wire ∧
      s1.pwmState.length = 116 ∧
      ∀ m k, s1.pwm m k =
        if m = n ∧ k = cr then some vr
        else if m = n ∧ k = cg then some vg
        else if m = n ∧ k = cb then some vb
        else s.pwm m k := by
  have r1 := segmentMap_range seg 0 cr hcr
  have r2 := segmentMap_range seg 1 cg hcg
  have r3 := segmentMap_range seg 2 cb hcb
  refine ⟨_, segment_eq s n seg r g b cr cg cb vr vg vb hn0 hn1 hcr hcg hcb hvr hvg hvb br bg bb,
    rfl, rfl, rfl, rfl, by simp [hl], ?_⟩
  intro m k
  simp only [Numeral.pwm]
  rw [readCell_set _ n cb vb m k (by simp [hl]) hn0 hn1 (by omega) (by omega),
    readCell_set _ n cg vg m k (by simp [hl]) hn0 hn1 (by omega) (by omega),
    readCell_set _ n cr vr m k hl hn0 hn1 (by omega) (by omega)]
  obtain ⟨d1, d2, d3⟩ := hd
  by_cases e1 : m = n ∧ k = cr
  · have e2 : ¬ (m = n ∧ k = cg) := fun h => d1 (e1.2.symm.trans h.2)
    have e3 : ¬ (m = n ∧ k = cb) := fun h => d2 (e1.2.symm.trans h.2)
    rw [if_neg e3, if_neg e2, if_pos e1, if_pos e1]
  · by_cases e2 : m = n ∧ k = cg
    · have e3 : ¬ (m = n ∧ k = cb) := fun h => d3 (e2.2.symm.trans h.2)
      rw [if_neg e3, if_pos e2, if_neg e1, if_pos e2]
    · rw [if_neg e1, if_neg e2, if_neg e2, if_neg e1]

/-- C8: for a device index in `0..3`, a segment id in `0..7` and `r, g, b` in
`0..255`, `segment` returns normally, issues no bus transmission, leaves the
LED shadow array, the registry and `count` as they were, and leaves every PWM
shadow cell of every device unchanged except the three cells of device `n`
named by `segmentMap[seg]`. -/
theorem segment_frame (s : Numeral) (n seg r g b : Int) (hwf : s.wf)
    (hn0 : 0 ≤ n) (hn1 : n ≤ 3) (hs0 : 0 ≤ seg) (hs1 : seg ≤ 7)
    (hr0 : 0 ≤ r) (hr1 : r ≤ 255) (hg0 : 0 ≤ g) (hg1 : g ≤ 255) (hb0 : 0 ≤ b) (hb1 : b ≤ 255) :
    ∃ s1, s.segment n seg r g b = some s1 ∧ s1.wire = s.wire ∧ s1.ledState = s.ledState ∧
      s1.i2cAddresses = s.i2cAddresses ∧ s1.count = s.count ∧ s1.wf ∧
      ∀ m k : Int,
        ¬ (m = n ∧ (readAt2 segmentMap seg 0 = some k ∨ readAt2 segmentMap seg 1 = some k ∨
          readAt2 segmentMap seg 2 = some k)) →
        s1.pwm m k = s.pwm m k := by
  obtain ⟨cr, cg, cb, hcr, hcg, hcb, hd⟩ := segmentMap_lookup seg hs0 hs1
  obtain ⟨vr, hvr, br⟩ := readAt_gamma8 r hr0 hr1
  obtain ⟨vg, hvg, bg⟩ := readAt_gamma8 g hg0 hg1
  obtain ⟨vb, hvb, bb⟩ := readAt_gamma8 b hb0 hb1
  obtain ⟨s1, h1, h2, h3, h4, h5, h6, h7⟩ :=
    segment_pwm s n seg r g b cr cg cb vr vg vb hwf.2.2 hn0 (by omega) hcr hcg hcb hvr hvg hvb
      br bg bb hd
  refine ⟨s1, h1, h5, h4, h3, h2, ⟨by rw [h3]; exact hwf.1, by rw [h4]; exact hwf.2.1, h6⟩, ?_⟩
  intro m k hk
  rw [h7 m k, hcr, hcg, hcb] at *
  simp only [Option.some.injEq] at hk
  have e1 : ¬ (m = n ∧ k = cr) := fun h => hk ⟨h.1, Or.inl h.2.symm⟩
  have e2 : ¬ (m = n ∧ k = cg) := fun h => hk ⟨h.1, Or.inr (Or.inl h.2.symm)⟩
  have e3 : ¬ (m = n ∧ k = cb) := fun h => hk ⟨h.1, Or.inr (Or.inr h.2.symm)⟩
  rw [if_neg e1, if_neg e2, if_neg e3]

theorem segment_frame_witness :
    numeral.wf ∧ ∃ s1, numeral.segment 1 segmentDP 255 128 0 = some s1 ∧ s1.wire = [] ∧
      s1.ledState = numeral.ledState ∧ s1.pwm 1 0 = some 0x05 ∧ s1.pwm 0 23 = some 0 := by
  have hwf : numeral.wf := by decide
  obtain ⟨s1, h1, h2, h3, _, _, _, h7⟩ :=
    segment_frame numeral 1 segmentDP 255 128 0 hwf (by decide) (by decide) (by decide)
      (by decide) (by decide) (by decide) (by decide) (by decide) (by decide) (by decide)
  refine ⟨hwf, s1, h1, h2, h3, ?_, ?_⟩
  · rw [h7 1 0 (by decide)]; decide
  · rw [h7 0 23 (by decide)]; decide

/-- C9: for a device index in `0..3`, a segment id in `0..7` and `r, g, b` in
`0..255`, after `segment` the PWM shadow cell at the segment's red channel
holds `gamma8[r]`, the cell at its green channel holds `gamma8[g]` and the
cell at its blue channel holds `gamma8[b]`. -/
theorem segment_stores_gamma (s : Numeral) (n seg r g b : Int) (hwf : s.wf)
    (hn0 : 0 ≤ n) (hn1 : n ≤ 3) (hs0 : 0 ≤ seg) (hs1 : seg ≤ 7)
    (hr0 : 0 ≤ r) (hr1 : r ≤ 255) (hg0 : 0 ≤ g) (hg1 : g ≤ 255) (hb0 : 0 ≤ b) (hb1 : b ≤ 255) :
    ∃ s1 cr cg cb vr vg vb, s.segment n seg r g b = some s1 ∧
      readAt2 segmentMap seg 0 = some cr ∧ readAt2 segmentMap seg 1 = some cg ∧
      readAt2 segmentMap seg 2 = some cb ∧
      readAt gamma8 r = some vr ∧ readAt gamma8 g = some vg ∧ readAt gamma8 b = some vb ∧
      s1.pwm n cr = some vr ∧ s1.pwm n cg = some vg ∧ s1.pwm n cb = some vb := by
  obtain ⟨cr, cg, cb, hcr, hcg, hcb, hd⟩ := segmentMap_lookup seg hs0 hs1
  obtain ⟨vr, hvr, br⟩ := readAt_gamma8 r hr0 hr1
  obtain ⟨vg, hvg, bg⟩ := readAt_gamma8 g hg0 hg1
  obtain ⟨vb, hvb, bb⟩ := readAt_gamma8 b hb0 hb1
  obtain ⟨s1, h1, _, _, _, _, _, h7⟩ :=
    segment_pwm s n seg r g b cr cg cb vr vg vb hwf.2.2 hn0 (by omega) hcr hcg hcb hvr hvg hvb
      br bg bb hd
  refine ⟨s1, cr, cg, cb, vr, vg, vb, h1, hcr, hcg, hcb, hvr, hvg, hvb, ?_, ?_, ?_⟩
  · rw [h7]; simp
  · rw [h7]; simp [hd.1.symm]
  · rw [h7]; simp [hd.2.1.symm, hd.2.2.symm]

set_option maxRecDepth 100000 in
theorem segment_stores_gamma_witness :
    ∃ s1, numeral.segment 0 segmentA 255 128 28 = some s1 ∧
      s1.pwm 0 17 = some 255 ∧ s1.pwm 0 16 = some 37 ∧ s1.pwm 0 15 = some 1 := by
  obtain ⟨s1, cr, cg, cb, vr, vg, vb, h, hcr, hcg, hcb, hvr, hvg, hvb, pr, pg, pb⟩ :=
    segment_stores_gamma numeral 0 segmentA 255 128 28 (by decide) (by decide) (by decide)
      (by decide) (by decide) (by decide) (by decide) (by decide) (by decide) (by decide)
      (by decide)
  have e1 : readAt2 segmentMap segmentA 0 = some 17 := by decide
  have e2 : readAt2 segmentMap segmentA 1 = some 16 := by decide
  have e3 : readAt2 segmentMap segmentA 2 = some 15 := by decide
  have e4 : readAt gamma8 255 = some 255 := by decide
  have e5 : readAt gamma8 128 = some 37 := by decide
  have e6 : readAt gamma8 28 = some 1 := by decide
  rw [e1] at hcr; rw [e2] at hcg; rw [e3] at hcb
  rw [e4] at hvr; rw [e5] at hvg; rw [e6] at hvb
  cases hcr; cases hcg; cases hcb; cases hvr; cases hvg; cases hvb
  exact ⟨s1, h, pr, pg, pb⟩

theorem readAt_i2cAddresses (s : Numeral) (n : Int) (hl : s.i2cAddresses.length = 4)
    (hn0 : 0 ≤ n) (hn1 : n < 4) : ∃ a, readAt s.i2cAddresses n = some a := by
  have hlt : n.toNat < s.i2cAddresses.length := by omega
  exact ⟨s.i2cAddresses[n.toNat], by simp [readAt, hn0, List.getElem?_eq_getElem hlt]⟩

theorem _writeRegister_shadow (sizeofInt : Nat) (s : Numeral) (n reg v : Int)
    (hl : s.i2cAddresses.length = 4) (hn0 : 0 ≤ n) (hn1 : n < 4) :
    ∃ s1, s._writeRegister sizeofInt n reg v = some s1 ∧ s1.pwmState = s.pwmState ∧
      s1.ledState = s.ledState ∧ s1.count = s.count ∧ s1.i2cAddresses = s.i2cAddresses := by
  obtain ⟨a, ha⟩ := readAt_i2cAddresses s n hl hn0 hn1
  by_cases h : a = 0
  · exact ⟨s, by simp [Numeral._writeRegister, ha, h], rfl, rfl, rfl, rfl⟩
  · exact ⟨s._i2cWrite a [reg, v] 0 (2 * sizeofInt),
      by simp only [Numeral._writeRegister, ha, Option.some_bind, ne_eq, h,
        not_false_eq_true, if_true], rfl, rfl, rfl, rfl⟩

theorem _updatePWM_shadow (sizeofInt : Nat) (s : Numeral) (n : Int)
    (hl : s.i2cAddresses.length = 4) (hn0 : 0 ≤ n) (hn1 : n < 4) :
    ∃ s1, s._updatePWM sizeofInt n = some s1 ∧ s1.pwmState = s.pwmState ∧
      s1.ledState = s.ledState ∧ s1.count = s.count ∧ s1.i2cAddresses = s.i2cAddresses := by
  obtain ⟨a, ha⟩ := readAt_i2cAddresses s n hl hn0 hn1
  have hp : rowPtr n = some (29 * n.toNat) := by simp [rowPtr, hn0, hn1]
  obtain ⟨s1, h1, h2, h3, h4, h5⟩ :=
    _writeRegister_shadow sizeofInt (s._i2cWrite a s.pwmState (29 * n.toNat) (29 * sizeofInt))
      n pwmRegisterUpdate 0x00 hl hn0 hn1
  exact ⟨s1, by simp only [Numeral._updatePWM, ha, hp, Option.some_bind, h1], h2, h3, h4, h5⟩

set_option maxRecDepth 100000 in
theorem readAt_gamma8_zero : readAt gamma8 0 = some 0 := by decide

theorem writeDigitStep_pwm (s : Numeral) (n d seg r g b cr cg cb vr vg vb lit : Int)
    (hl : s.pwmState.length = 116) (hn0 : 0 ≤ n) (hn1 : n < 4)
    (hlit : readAt2 digitSegments d seg = some lit) (h01 : lit = 0 ∨ lit = 1)
    (hcr : readAt2 segmentMap seg 0 = some cr) (hcg : readAt2 segmentMap seg 1 = some cg)
    (hcb : readAt2 segmentMap seg 2 = some cb)
    (hvr : readAt gamma8 r = some vr) (hvg : readAt gamma8 g = some vg)
    (hvb : readAt gamma8 b = some vb)
    (br : 0 ≤ vr ∧ vr ≤ 255) (bg : 0 ≤ vg ∧ vg ≤ 255) (bb : 0 ≤ vb ∧ vb ≤ 255)
    (hd : cr ≠ cg ∧ cr ≠ cb ∧ cg ≠ cb) :
    ∃ s1, Numeral.writeDigitStep n d r g b s seg = some s1 ∧ s1.count = s.count ∧
      s1.i2cAddresses = s.i2cAddresses ∧ s1.ledState = s.ledState ∧ s1.wire = s.wire ∧
      s1.pwmState.length = 116 ∧
      ∀ m k, s1.pwm m k =
        if m = n ∧ k = cr then some (if lit ≠ 0 then vr else 0)
        else if m = n ∧ k = cg then some (if lit ≠ 0 then vg else 0)
        else if m = n ∧ k = cb then some (if lit ≠ 0 then vb else 0)
        else s.pwm m k := by
  have hz := readAt_gamma8_zero
  rcases h01 with h | h
  · subst h
    obtain ⟨s1, h1, h2⟩ := segment_pwm s n seg 0 0 0 cr cg cb 0 0 0 hl hn0 hn1 hcr hcg hcb
      hz hz hz (by omega) (by omega) (by omega) hd
    exact ⟨s1, by simp [Numeral.writeDigitStep, hlit, pgm_read_byte, h1], by simpa using h2⟩
  · subst h
    obtain ⟨s1, h1, h2⟩ := segment_pwm s n seg r g b cr cg cb vr vg vb hl hn0 hn1 hcr hcg hcb
      hvr hvg hvb br bg bb hd
    exact ⟨s1, by simp [Numeral.writeDigitStep, hlit, pgm_read_byte, h1], by simpa using h2⟩

/-- C5: for a device index in `0..3`, a digit in `0..10` and `r, g, b` in
`0..255`, `writeDigit` returns normally and afterwards, for each segment A..G,
the three PWM shadow cells named by `segmentMap[seg]` hold
`(gamma8[r], gamma8[g], gamma8[b])` when `digitSegments[d][seg]` is lit and
`(0, 0, 0)` otherwise, while the decimal-point cells 23, 24, 25 hold what they
held before the call. -/
theorem writeDigit_paints (sizeofInt : Nat) (s : Numeral) (n d r g b : Int) (hwf : s.wf)
    (hn0 : 0 ≤ n) (hn1 : n ≤ 3) (hd0 : 0 ≤ d) (hd1 : d ≤ 10)
    (hr0 : 0 ≤ r) (hr1 : r ≤ 255) (hg0 : 0 ≤ g) (hg1 : g ≤ 255) (hb0 : 0 ≤ b) (hb1 : b ≤ 255) :
    ∃ s1 vr vg vb, s.writeDigit sizeofInt n d r g b = some s1 ∧
      readAt gamma8 r = some vr ∧ readAt gamma8 g = some vg ∧ readAt gamma8 b = some vb ∧
      (∀ seg : Int, segmentA ≤ seg → seg ≤ segmentG →
        ∃ lit cr cg cb, readAt2 digitSegments d seg = some lit ∧
          readAt2 segmentMap seg 0 = some cr ∧ readAt2 segmentMap seg 1 = some cg ∧
          readAt2 segmentMap seg 2 = some cb ∧
          s1.pwm n cr = some (if lit ≠ 0 then vr else 0) ∧
          s1.pwm n cg = some (if lit ≠ 0 then vg else 0) ∧
          s1.pwm n cb = some (if lit ≠ 0 then vb else 0)) ∧
      s1.pwm n 23 = s.pwm n 23 ∧ s1.pwm n 24 = s.pwm n 24 ∧ s1.pwm n 25 = s.pwm n 25 := by
  obtain ⟨vr, hvr, br⟩ := readAt_gamma8 r hr0 hr1
  obtain ⟨vg, hvg, bg⟩ := readAt_gamma8 g hg0 hg1
  obtain ⟨vb, hvb, bb⟩ := readAt_gamma8 b hb0 hb1
  have hn2 : n < 4 := by omega
  obtain ⟨l0, hl0, b0⟩ := readAt2_digitSegments d 0 hd0 hd1 (by decide) (by decide)
  obtain ⟨l1, hl1, b1⟩ := readAt2_digitSegments d 1 hd0 hd1 (by decide) (by decide)
  obtain ⟨l2, hl2, b2⟩ := readAt2_digitSegments d 2 hd0 hd1 (by decide) (by decide)
  obtain ⟨l3, hl3, b3⟩ := readAt2_digitSegments d 3 hd0 hd1 (by decide) (by decide)
  obtain ⟨l4, hl4, b4⟩ := readAt2_digitSegments d 4 hd0 hd1 (by decide) (by decide)
  obtain ⟨l5, hl5, b5⟩ := readAt2_digitSegments d 5 hd0 hd1 (by decide) (by decide)
  obtain ⟨l6, hl6, b6⟩ := readAt2_digitSegments d 6 hd0 hd1 (by decide) (by decide)
  obtain ⟨t1, e1, c1, a1, _, _, n1, p1⟩ := writeDigitStep_pwm s n d 0 r g b 17 16 15 vr vg vb l0
    hwf.2.2 hn0 hn2 hl0 b0 rfl rfl rfl hvr hvg hvb br bg bb (by decide)
  obtain ⟨t2, e2, c2, a2, _, _, n2, p2⟩ := writeDigitStep_pwm t1 n d 1 r g b 22 21 20 vr vg vb l1
    n1 hn0 hn2 hl1 b1 rfl rfl rfl hvr hvg hvb br bg bb (by decide)
  obtain ⟨t3, e3, c3, a3, _, _, n3, p3⟩ := writeDigitStep_pwm t2 n d 2 r g b 26 27 28 vr vg vb l2
    n2 hn0 hn2 hl2 b2 rfl rfl rfl hvr hvg hvb br bg bb (by decide)
  obtain ⟨t4, e4, c4, a4, _, _, n4, p4⟩ := writeDigitStep_pwm t3 n d 3 r g b 1 2 3 vr vg vb l3
    n3 hn0 hn2 hl3 b3 rfl rfl rfl hvr hvg hvb br bg bb (by decide)
  obtain ⟨t5, e5, c5, a5, _, _, n5, p5⟩ := writeDigitStep_pwm t4 n d 4 r g b 4 5 6 vr vg vb l4
    n4 hn0 hn2 hl4 b4 rfl rfl rfl hvr hvg hvb br bg bb (by decide)
  obtain ⟨t6, e6, c6, a6, _, _, n6, p6⟩ := writeDigitStep_pwm t5 n d 5 r g b 9 7 8 vr vg vb l5
    n5 hn0 hn2 hl5 b5 rfl rfl rfl hvr hvg hvb br bg bb (by decide)
  obtain ⟨t7, e7, c7, a7, _, _, n7, p7⟩ := writeDigitStep_pwm t6 n d 6 r g b 14 13 12 vr vg vb l6
    n6 hn0 hn2 hl6 b6 rfl rfl rfl hvr hvg hvb br bg bb (by decide)
  have ha7 : t7.i2cAddresses.length = 4 := by rw [a7, a6, a5, a4, a3, a2, a1]; exact hwf.1
  obtain ⟨s1, u1, u2, _⟩ := _updatePWM_shadow sizeofInt t7 n ha7 hn0 hn2
  have hloop : writeDigitSegments.foldlM (Numeral.writeDigitStep n d r g b) s = some t7 := by
    have hs : writeDigitSegments = [0, 1, 2, 3, 4, 5, 6] := by decide
    simp only [hs, List.foldlM_cons, List.foldlM_nil, e1, e2, e3, e4, e5, e6, e7,
      Option.bind_eq_bind, Option.some_bind, Option.pure_def]
  have hp : ∀ m k, s1.pwm m k = t7.pwm m k := fun m k => by simp only [Numeral.pwm, u2]
  refine ⟨s1, vr, vg, vb, by simp only [Numeral.writeDigit, hloop, Option.some_bind, u1],
    hvr, hvg, hvb, ?_, ?_, ?_, ?_⟩
  · intro seg hs0 hs1
    simp only [segmentA, segmentG] at hs0 hs1
    interval_cases seg
    · exact ⟨l0, 17, 16, 15, hl0, rfl, rfl, rfl, by simp [hp, p7, p6, p5, p4, p3, p2, p1],
        by simp [hp, p7, p6, p5, p4, p3, p2, p1], by simp [hp, p7, p6, p5, p4, p3, p2, p1]⟩
    · exact ⟨l1, 22, 21, 20, hl1, rfl, rfl, rfl, by simp [hp, p7, p6, p5, p4, p3, p2, p1],
        by simp [hp, p7, p6, p5, p4, p3, p2, p1], by simp [hp, p7, p6, p5, p4, p3, p2, p1]⟩
    · exact ⟨l2, 26, 27, 28, hl2, rfl, rfl, rfl, by simp [hp, p7, p6, p5, p4, p3, p2, p1],
        by simp [hp, p7, p6, p5, p4, p3, p2, p1], by simp [hp, p7, p6, p5, p4, p3, p2, p1]⟩
    · exact ⟨l3, 1, 2, 3, hl3, rfl, rfl, rfl, by simp [hp, p7, p6, p5, p4, p3, p2, p1],
        by simp [hp, p7, p6, p5, p4, p3, p2, p1], by simp [hp, p7, p6, p5, p4, p3, p2, p1]⟩
    · exact ⟨l4, 4, 5, 6, hl4, rfl, rfl, rfl, by simp [hp, p7, p6, p5, p4, p3, p2, p1],
        by simp [hp, p7, p6, p5, p4, p3, p2, p1], by simp [hp, p7, p6, p5, p4, p3, p2, p1]⟩
    · exact ⟨l5, 9, 7, 8, hl5, rfl, rfl, rfl, by simp [hp, p7, p6, p5, p4, p3, p2, p1],
        by simp [hp, p7, p6, p5, p4, p3, p2, p1], by simp [hp, p7, p6, p5, p4, p3, p2, p1]⟩
    · exact ⟨l6, 14, 13, 12, hl6, rfl, rfl, rfl, by simp [hp, p7, p6, p5, p4, p3, p2, p1],
        by simp [hp, p7, p6, p5, p4, p3, p2, p1], by simp [hp, p7, p6, p5, p4, p3, p2, p1]⟩
  · simp [hp, p7, p6, p5, p4, p3, p2, p1]
  · simp [hp, p7, p6, p5, p4, p3, p2, p1]
  · simp [hp, p7, p6, p5, p4, p3, p2, p1]

set_option maxRecDepth 100000 in
theorem writeDigit_paints_witness :
    ∃ s1, numeral.writeDigit 2 0 7 255 128 28 = some s1 ∧
      s1.pwm 0 17 = some 255 ∧ s1.pwm 0 16 = some 37 ∧ s1.pwm 0 15 = some 1 ∧
      s1.pwm 0 14 = some 0 ∧ s1.pwm 0 23 = some 0 := by
  obtain ⟨s1, vr, vg, vb, h, hvr, hvg, hvb, hseg, hdp, _, _⟩ :=
    writeDigit_paints 2 numeral 0 7 255 128 28 (by decide) (by decide) (by decide) (by decide)
      (by decide) (by decide) (by decide) (by decide) (by decide) (by decide) (by decide)
  have e4 : readAt gamma8 255 = some 255 := by decide
  have e5 : readAt gamma8 128 = some 37 := by decide
  have e6 : readAt gamma8 28 = some 1 := by decide
  rw [e4] at hvr; rw [e5] at hvg; rw [e6] at hvb
  cases hvr; cases hvg; cases hvb
  obtain ⟨la, ar, ag, ab, hla, har, hag, hab, pa1, pa2, pa3⟩ :=
    hseg segmentA (by decide) (by decide)
  obtain ⟨lg, gr, gg, gb, hlg, hgr, _, _, pg1, _, _⟩ :=
    hseg segmentG (by decide) (by decide)
  have f1 : readAt2 digitSegments 7 segmentA = some 1 := by decide
  have f2 : readAt2 segmentMap segmentA 0 = some 17 := by decide
  have f3 : readAt2 segmentMap segmentA 1 = some 16 := by decide
  have f4 : readAt2 segmentMap segmentA 2 = some 15 := by decide
  have f5 : readAt2 digitSegments 7 segmentG = some 0 := by decide
  have f6 : readAt2 segmentMap segmentG 0 = some 14 := by decide
  rw [f1] at hla; rw [f2] at har; rw [f3] at hag; rw [f4] at hab
  rw [f5] at hlg; rw [f6] at hgr
  cases hla; cases har; cases hag; cases hab; cases hlg; cases hgr
  refine ⟨s1, h, by simpa using pa1, by simpa using pa2, by simpa using pa3,
    by simpa using pg1, ?_⟩
  rw [hdp]; decide

set_option maxRecDepth 100000 in
/-- C2 (the code departs from the claim): `writeNumber` passes the registry
entry `i2cAddresses[count - 1 - N]`, a bus address, as the device index of
`writeDigit`.  After discovery of one device at 0x3c, `writeNumber(7)` calls
`writeDigit(0x3c, 7)`, whose store into `pwmState[0x3c]` is out of bounds, so
device index 0 never shows 7.  With the registry `[1, 3]`, `writeNumber(57)`
is `writeDigit(3, 7)` followed by `writeDigit(1, 5)`: the ones digit goes to
device index 3 and device index 0 stays dark. -/
theorem writeNumber_uses_address_as_index :
    (numeral.i2cScan (fun a => a == 0x3c)).map (fun s => (s.count, s.i2cAddresses))
      = some (1, [0x3c, 0, 0, 0]) ∧
    (numeral.i2cScan (fun a => a == 0x3c)).bind (fun s => s.writeNumber 2 7 255 255 255)
      = none ∧
    ((numeral.addNumeral 1).bind (fun s => s.addNumeral 3)).map
        (fun s => (s.count, s.i2cAddresses)) = some (2, [1, 3, 0, 0]) ∧
    ((numeral.addNumeral 1).bind (fun s => s.addNumeral 3)).bind
        (fun s => s.writeNumber 2 57 255 255 255)
      = ((numeral.addNumeral 1).bind (fun s => s.addNumeral 3)).bind
          (fun s => (s.writeDigit 2 3 7 255 255 255).bind
            (fun s1 => s1.writeDigit 2 1 5 255 255 255)) ∧
    (((numeral.addNumeral 1).bind (fun s => s.addNumeral 3)).bind
        (fun s => s.writeNumber 2 57 255 255 255)).map (fun s => s.pwmState.take 29)
      = some pwmRow := by
  refine ⟨by decide, by decide, by decide, by decide, by decide⟩

set_option maxRecDepth 100000 in
/-- C10 (the code departs from the claim): the flush operations pass
`sizeof(array)`, a size in bytes, as the number of `int`s to send.  The LED
flush and the write step of the PWM flush therefore each send
`29 * sizeof(int)` values, and the latch write sends `2 * sizeof(int)`.  With
`sizeof(int) = 2` the flush of device 0 carries the 29 cells of row 0
followed by the 29 cells of row 1, and the latch write carries two values
fetched past the end of `cmd`. -/
theorem flush_payload_counts_bytes :
    (∀ sizeofInt : Nat,
      ((numeral.addNumeral 0x3c).bind (fun s => s._updateLED sizeofInt 0)).map
        (fun s => s.wire.map (fun t => (t.address, t.data.length)))
          = some [(0x3c, 29 * sizeofInt)]) ∧
    (∀ sizeofInt : Nat,
      ((numeral.addNumeral 0x3c).bind (fun s => s._updatePWM sizeofInt 0)).map
        (fun s => s.wire.map (fun t => (t.address, t.data.length)))
          = some [(0x3c, 29 * sizeofInt), (0x3c, 2 * sizeofInt)]) ∧
    ((numeral.addNumeral 0x3c).bind (fun s => s._updateLED 2 0)).map (fun s => s.wire)
      = some [⟨0x3c, (ledRow ++ ledRow).map some⟩] ∧
    ((numeral.addNumeral 0x3c).bind (fun s => s._updatePWM 2 0)).map (fun s => s.wire)
      = some [⟨0x3c, (pwmRow ++ pwmRow).map some⟩, ⟨0x3c, [some 0x25, some 0, none, none]⟩] := by
  refine ⟨fun sz => ?_, fun sz => ?_, by decide, by decide⟩
  · simp [Numeral.addNumeral, numeral, Numeral._updateLED, readAt, rowPtr, Numeral._i2cWrite]
  · simp [Numeral.addNumeral, numeral, Numeral._updatePWM, readAt, rowPtr, Numeral._i2cWrite,
      Numeral._writeRegister]

/-! ## Register writes, registry and bus log -/

theorem readAt_addressOf (s : Numeral) (k : Nat) (hl : s.i2cAddresses.length = 4) (hk : k < 4) :
    readAt s.i2cAddresses (k : Int) = some (s.addressOf k) := by
  have hlt : k < s.i2cAddresses.length := by omega
  simp [readAt, Numeral.addressOf, List.getElem?_eq_getElem hlt, List.getD_eq_getElem _ _ hlt]

theorem _writeRegister_log (sizeofInt : Nat) (s : Numeral) (k : Nat) (reg v : Int)
    (hl : s.i2cAddresses.length = 4) (hk : k < 4) (w : List Transmission) :
    ({ s with wire := w } : Numeral)._writeRegister sizeofInt (k : Int) reg v =
      some { s with wire := w ++ s.registerWrite sizeofInt k reg v } := by
  unfold Numeral._writeRegister Numeral.registerWrite
  have ha := readAt_addressOf s k hl hk
  simp only [ha, Option.some_bind]
  by_cases h : s.addressOf k = 0
  · simp [h]
  · simp [h, Numeral._i2cWrite, cellsFrom]

theorem _updateLED_log (sizeofInt : Nat) (s : Numeral) (k : Nat)
    (hl : s.i2cAddresses.length = 4) (hk : k < 4) (w : List Transmission) :
    ({ s with wire := w } : Numeral)._updateLED sizeofInt (k : Int) =
      some { s with wire := w ++ [s.ledWrite sizeofInt k] } := by
  have hp : rowPtr (k : Int) = some (29 * k) := by
    simp [rowPtr]; omega
  have ha := readAt_addressOf s k hl hk
  simp [Numeral._updateLED, ha, hp, Numeral._i2cWrite, Numeral.ledWrite, cellsFrom]

theorem _updatePWM_log (sizeofInt : Nat) (s : Numeral) (k : Nat)
    (hl : s.i2cAddresses.length = 4) (hk : k < 4) (w : List Transmission) :
    ({ s with wire := w } : Numeral)._updatePWM sizeofInt (k : Int) =
      some { s with wire := w ++ (s.pwmWrite sizeofInt k ::
        s.registerWrite sizeofInt k pwmRegisterUpdate 0) } := by
  have hp : rowPtr (k : Int) = some (29 * k) := by
    simp [rowPtr]; omega
  have ha := readAt_addressOf s k hl hk
  unfold Numeral._updatePWM
  simp only [ha, hp, Option.some_bind, Numeral._i2cWrite]
  rw [_writeRegister_log sizeofInt s k _ _ hl hk]
  simp [Numeral.pwmWrite, cellsFrom]

theorem foldlM_log (s : Numeral) (f : Numeral → Nat → Option Numeral)
    (L : Nat → List Transmission) :
    ∀ (ks : List Nat) (w : List Transmission),
      (∀ w1 k, k ∈ ks → f { s with wire := w1 } k = some { s with wire := w1 ++ L k }) →
      ks.foldlM f { s with wire := w } = some { s with wire := w ++ ks.flatMap L }
  | [], w, _ => by simp
  | k :: ks, w, hf => by
    rw [List.foldlM_cons, hf w k (List.mem_cons_self _ _)]
    simp only [Option.bind_eq_bind, Option.some_bind]
    rw [foldlM_log s f L ks (w ++ L k) (fun w1 j hj => hf w1 j (List.mem_cons_of_mem _ hj))]
    simp [List.flatMap_cons]

theorem update_eq (sizeofInt : Nat) (s : Numeral) (hl : s.i2cAddresses.length = 4)
    (h4 : s.count ≤ 4) :
    s.update sizeofInt =
      some { s with wire := s.wire ++ (List.range s.count.toNat).flatMap (s.updateLog sizeofInt) } := by
  unfold Numeral.update
  refine foldlM_log s _ (s.updateLog sizeofInt) (List.range s.count.toNat) s.wire ?_
  intro w1 k hk
  have hk4 : k < 4 := by
    have := List.mem_range.mp hk
    omega
  rw [_updateLED_log sizeofInt s k hl hk4]
  simp only [Option.some_bind]
  rw [_updatePWM_log sizeofInt s k hl hk4]
  simp [Numeral.updateLog]

theorem setup_loop_eq (sizeofInt : Nat) (s : Numeral) (hl : s.i2cAddresses.length = 4)
    (h4 : s.count ≤ 4) :
    (List.range s.count.toNat).foldlM
      (fun (st : Numeral) (k : Nat) =>
        (st._writeRegister sizeofInt (k : Int) resetRegister 0x00).bind fun st1 =>
        (st1._updatePWM sizeofInt (k : Int)).bind fun st2 =>
        (st2._updateLED sizeofInt (k : Int)).bind fun st3 =>
        (st3._writeRegister sizeofInt (k : Int) pwmFrequencyRegister 1).bind fun st4 =>
        st4.power sizeofInt (k : Int) true)
      s =
      some { s with wire := s.wire ++ (List.range s.count.toNat).flatMap (s.setupLog sizeofInt) } := by
  refine foldlM_log s _ (s.setupLog sizeofInt) (List.range s.count.toNat) s.wire ?_
  intro w1 k hk
  have hk4 : k < 4 := by
    have := List.mem_range.mp hk
    omega
  rw [_writeRegister_log sizeofInt s k _ _ hl hk4]
  simp only [Option.some_bind]
  rw [_updatePWM_log sizeofInt s k hl hk4]
  simp only [Option.some_bind]
  rw [_updateLED_log sizeofInt s k hl hk4]
  simp only [Option.some_bind]
  rw [_writeRegister_log sizeofInt s k _ _ hl hk4]
  simp only [Option.some_bind]
  unfold Numeral.power
  rw [_writeRegister_log sizeofInt s k _ _ hl hk4]
  simp [Numeral.setupLog]

theorem readAt_set (l : List Int) (i : Nat) (a : Int) (k : Int) (hi : i < l.length) :
    readAt (l.set i a) k = if k = (i : Int) then some a else readAt l k := by
  unfold readAt
  by_cases h0 : 0 ≤ k
  · rw [if_pos h0, if_pos h0, List.getElem?_set]
    by_cases he : k = (i : Int)
    · subst he; simp [hi]
    · have : ¬ (i = k.toNat) := by omega
      rw [if_neg this, if_neg he]
  · have he : ¬ (k = (i : Int)) := by omega
    rw [if_neg h0, if_neg h0, if_neg he]

theorem addNumeral_eq (s : Numeral) (a : Int) (h0 : 0 ≤ s.count) (h4 : s.count < 4) :
    s.addNumeral a = some { s with
      i2cAddresses := s.i2cAddresses.set s.count.toNat a
      count := s.count + 1 } := by
  simp [Numeral.addNumeral, h0, h4]

/-- C15: for a registry with `0 ≤ count < 4` and any address `a`, `addNumeral(a)`
stores `a` at registry index `count`, increases `count` by exactly one, and
leaves every other registry entry, both shadow arrays and the bus log as they
were; a second call then stores its address at the next index, so addresses
appear in call order. -/
theorem addNumeral_appends (s : Numeral) (a : Int) (hwf : s.wf) (h0 : 0 ≤ s.count)
    (h4 : s.count < 4) :
    ∃ s1, s.addNumeral a = some s1 ∧ s1.count = s.count + 1 ∧
      readAt s1.i2cAddresses s.count = some a ∧
      (∀ k : Int, k ≠ s.count → readAt s1.i2cAddresses k = readAt s.i2cAddresses k) ∧
      s1.ledState = s.ledState ∧ s1.pwmState = s.pwmState ∧ s1.wire = s.wire ∧ s1.wf ∧
      (∀ b : Int, s.count + 1 < 4 →
        ∃ s2, s1.addNumeral b = some s2 ∧ s2.count = s.count + 2 ∧
          readAt s2.i2cAddresses s.count = some a ∧
          readAt s2.i2cAddresses (s.count + 1) = some b) := by
  have hlt : s.count.toNat < s.i2cAddresses.length := by rw [hwf.1]; omega
  have hc : ((s.count.toNat : Nat) : Int) = s.count := Int.toNat_of_nonneg h0
  refine ⟨_, addNumeral_eq s a h0 h4, rfl, ?_, ?_, rfl, rfl, rfl, ?_, ?_⟩
  · simp only [readAt_set _ _ a _ hlt, hc, if_true]
  · intro k hk
    simp only [readAt_set _ _ a _ hlt, hc, if_neg hk]
  · exact ⟨by simp [hwf.1], hwf.2.1, hwf.2.2⟩
  · intro b hb
    have hlt2 : (s.count + 1).toNat < (s.i2cAddresses.set s.count.toNat a).length := by
      rw [List.length_set, hwf.1]; omega
    have hc2 : (((s.count + 1).toNat : Nat) : Int) = s.count + 1 :=
      Int.toNat_of_nonneg (by omega)
    refine ⟨_, addNumeral_eq _ b (by simp only; omega) (by simp only; omega), by simp only; omega,
      ?_, ?_⟩
    · simp only [readAt_set _ _ b _ hlt2, hc2, readAt_set _ _ a _ hlt, hc, if_true]
      rw [if_neg (by omega)]
    · simp only [readAt_set _ _ b _ hlt2, hc2, if_true]

theorem addNumeral_appends_witness :
    ∃ s1, numeral.addNumeral 0x3c = some s1 ∧ s1.count = 1 ∧
      readAt s1.i2cAddresses 0 = some 0x3c ∧
      ∃ s2, s1.addNumeral 0x3d = some s2 ∧ readAt s2.i2cAddresses 0 = some 0x3c ∧
        readAt s2.i2cAddresses 1 = some 0x3d := by
  obtain ⟨s1, h1, h2, h3, _, _, _, _, _, h9⟩ :=
    addNumeral_appends numeral 0x3c (by decide) (by decide) (by decide)
  obtain ⟨s2, k1, _, k3, k4⟩ := h9 0x3d (by decide)
  exact ⟨s1, h1, h2, h3, s2, k1, k3, k4⟩

/-- C11 (the code departs from the claim): `_writeRegister` passes
`sizeof(cmd)`, a size in bytes, as the number of `int`s to send, so the
transmission to a registered non-zero address carries `2 * sizeof(int)` values
rather than two.  With `sizeof(int) = 2`, `_writeRegister(0, 0x4B, 1)` on a
device registered at 0x3c sends `0x4B, 1` followed by two values fetched past
the end of `cmd`. -/
theorem writeRegister_payload_counts_bytes :
    (∀ (sizeofInt : Nat) (reg v : Int),
      ((numeral.addNumeral 0x3c).bind (fun s => s._writeRegister sizeofInt 0 reg v)).map
        (fun s => s.wire.map (fun t => (t.address, t.data.length)))
          = some [(0x3c, 2 * sizeofInt)]) ∧
    ((numeral.addNumeral 0x3c).bind (fun s => s._writeRegister 2 0 pwmFrequencyRegister 1)).map
        (fun s => s.wire)
      = some [⟨0x3c, [some 0x4B, some 1, none, none]⟩] := by
  refine ⟨fun sz reg v => ?_, by decide⟩
  simp [Numeral.addNumeral, numeral, Numeral._writeRegister, readAt, Numeral._i2cWrite]

/-- C12: when the registry entry `i2cAddresses[n]` is the unset value 0,
`_writeRegister(n, reg, v)` and `power(n, state)` return the driver state
exactly as it was: no transmission is added to the bus log and no member
changes. -/
theorem writeRegister_unset_address_noop (sizeofInt : Nat) (s : Numeral) (n reg v : Int)
    (shutdownState : Bool) (h : readAt s.i2cAddresses n = some 0) :
    s._writeRegister sizeofInt n reg v = some s ∧
    s.power sizeofInt n shutdownState = some s := by
  constructor
  · simp [Numeral._writeRegister, h]
  · simp [Numeral.power, Numeral._writeRegister, h]

theorem writeRegister_unset_address_noop_witness :
    numeral._writeRegister 2 3 resetRegister 0 = some numeral ∧
    numeral.power 2 3 true = some numeral :=
  writeRegister_unset_address_noop 2 numeral 3 resetRegister 0 true (by decide)

theorem i2cScan_from_empty (ack : Int → Bool) (s : Numeral)
    (hc : s.count = 0) (hl : s.i2cAddresses.length = 4) :
    ∃ s1, s.i2cScan ack = some s1 ∧
      s1.wire = s.wire ++ [⟨0x3f, []⟩, ⟨0x3e, []⟩, ⟨0x3d, []⟩, ⟨0x3c, []⟩] ∧
      0 ≤ s1.count ∧ s1.count ≤ 4 ∧
      s1.i2cAddresses.length = 4 ∧ s1.ledState = s.ledState ∧ s1.pwmState = s.pwmState := by
  obtain ⟨c, addrs, led, pwm, wire⟩ := s
  simp only at hc hl
  subst hc
  match addrs, hl with
  | [a0, a1, a2, a3], _ =>
    cases h3 : ack 0x3f <;> cases h2 : ack 0x3e <;> cases h1 : ack 0x3d <;>
      cases h0 : ack 0x3c <;>
      simp [Numeral.i2cScan, Numeral.i2cScanFrom, Numeral.addNumeral, numeralAddressEnd,
        numeralAddressStart, h0, h1, h2, h3]

theorem setup_eq_of_scan (sizeofInt : Nat) (ack : Int → Bool) (s s0 : Numeral)
    (hs : (if s.count = 0 then s.i2cScan ack else some s) = some s0)
    (hl : s0.i2cAddresses.length = 4) (h4 : s0.count ≤ 4) :
    s.setup sizeofInt ack = some { s0 with
      wire := s0.wire ++ (List.range s0.count.toNat).flatMap (s0.setupLog sizeofInt) } := by
  unfold Numeral.setup
  rw [hs]
  simp only [Option.some_bind]
  exact setup_loop_eq sizeofInt s0 hl h4

theorem registerWrite_of_ne (sizeofInt : Nat) (s : Numeral) (k : Nat) (reg v : Int)
    (h : s.addressOf k ≠ 0) :
    s.registerWrite sizeofInt k reg v =
      [⟨s.addressOf k, cellsFrom [reg, v] 0 (2 * sizeofInt)⟩] := by
  simp [Numeral.registerWrite, h]

/-- C13: `setup` runs the scan exactly when `count = 0` at entry.  With a
non-empty registry (`1 ≤ count ≤ 4`) it returns with `count` and the registry
entries unchanged, adds to the bus log only the initialisation transmissions
of the registered devices, and its result does not depend on which addresses
acknowledge.  With `count = 0` the scan runs (four probes are logged) and the
registry and `count` after `setup` are those the scan produced. -/
theorem setup_scans_only_empty_registry (sizeofInt : Nat) (ack : Int → Bool) (s : Numeral)
    (hwf : s.wf) (h4 : s.count ≤ 4) :
    (s.count ≠ 0 →
      ∃ s1, s.setup sizeofInt ack = some s1 ∧ s1.count = s.count ∧
        s1.i2cAddresses = s.i2cAddresses ∧
        s1.wire = s.wire ++ (List.range s.count.toNat).flatMap (s.setupLog sizeofInt) ∧
        ∀ ack2 : Int → Bool, s.setup sizeofInt ack2 = s.setup sizeofInt ack) ∧
    (s.count = 0 →
      ∃ s0 s1, s.i2cScan ack = some s0 ∧ s.setup sizeofInt ack = some s1 ∧
        s0.wire = s.wire ++ [⟨0x3f, []⟩, ⟨0x3e, []⟩, ⟨0x3d, []⟩, ⟨0x3c, []⟩] ∧
        s1.count = s0.count ∧ s1.i2cAddresses = s0.i2cAddresses ∧
        s1.wire = s0.wire ++ (List.range s0.count.toNat).flatMap (s0.setupLog sizeofInt)) := by
  constructor
  · intro hne
    have e : ∀ a : Int → Bool, s.setup sizeofInt a = some { s with
        wire := s.wire ++ (List.range s.count.toNat).flatMap (s.setupLog sizeofInt) } :=
      fun a => setup_eq_of_scan sizeofInt a s s (by rw [if_neg hne]) hwf.1 h4
    exact ⟨_, e ack, rfl, rfl, rfl, fun a => by rw [e a, e ack]⟩
  · intro hz
    obtain ⟨s0, e0, w0, _, c4, l0, _, _⟩ := i2cScan_from_empty ack s hz hwf.1
    exact ⟨s0, _, e0, setup_eq_of_scan sizeofInt ack s s0 (by rw [if_pos hz, e0]) l0 c4, w0,
      rfl, rfl, rfl⟩

/-- C14: `update` returns with `count`, the registry and both shadow arrays
unchanged, and adds to the bus log, for the device indices `0 .. count - 1` in
that order and for no other, the LED flush of the device, then its PWM flush,
then the latch write of register 0x25 with value 0 (the latch write is the
no-op of `_writeRegister` when the registry entry is the unset value 0).  With
`count = 0` the bus log is unchanged. -/
theorem update_flushes_each_registered (sizeofInt : Nat) (s : Numeral) (hwf : s.wf)
    (h4 : s.count ≤ 4) :
    ∃ s1, s.update sizeofInt = some s1 ∧ s1.count = s.count ∧
      s1.i2cAddresses = s.i2cAddresses ∧ s1.ledState = s.ledState ∧
      s1.pwmState = s.pwmState ∧
      s1.wire = s.wire ++ (List.range s.count.toNat).flatMap (s.updateLog sizeofInt) ∧
      (∀ k : Nat, s.addressOf k ≠ 0 →
        s.updateLog sizeofInt k =
          [⟨s.addressOf k, cellsFrom s.ledState (29 * k) (29 * sizeofInt)⟩,
           ⟨s.addressOf k, cellsFrom s.pwmState (29 * k) (29 * sizeofInt)⟩,
           ⟨s.addressOf k, cellsFrom [pwmRegisterUpdate, 0] 0 (2 * sizeofInt)⟩]) ∧
      (s.count = 0 → s1.wire = s.wire) := by
  refine ⟨_, update_eq sizeofInt s hwf.1 h4, rfl, rfl, rfl, rfl, rfl, ?_, ?_⟩
  · intro k hk
    simp [Numeral.updateLog, registerWrite_of_ne sizeofInt s k _ _ hk, Numeral.ledWrite,
      Numeral.pwmWrite]
  · intro hz
    simp [hz]

theorem writeDigit_loop (s : Numeral) (n d r g b vr vg vb : Int)
    (hl : s.pwmState.length = 116) (hn0 : 0 ≤ n) (hn2 : n < 4) (hd0 : 0 ≤ d) (hd1 : d ≤ 10)
    (hvr : readAt gamma8 r = some vr) (hvg : readAt gamma8 g = some vg)
    (hvb : readAt gamma8 b = some vb)
    (br : 0 ≤ vr ∧ vr ≤ 255) (bg : 0 ≤ vg ∧ vg ≤ 255) (bb : 0 ≤ vb ∧ vb ≤ 255) :
    ∃ t, writeDigitSegments.foldlM (Numeral.writeDigitStep n d r g b) s = some t ∧
      t.count = s.count ∧ t.i2cAddresses = s.i2cAddresses ∧ t.ledState = s.ledState ∧
      t.wire = s.wire ∧ t.pwmState.length = 116 ∧
      (∀ seg : Int, 0 ≤ seg → seg ≤ 6 →
        ∃ lit cr cg cb, readAt2 digitSegments d seg = some lit ∧ (lit = 0 ∨ lit = 1) ∧
          readAt2 segmentMap seg 0 = some cr ∧ readAt2 segmentMap seg 1 = some cg ∧
          readAt2 segmentMap seg 2 = some cb ∧
          cr ∈ segmentChannels ∧ cg ∈ segmentChannels ∧ cb ∈ segmentChannels ∧
          t.pwm n cr = some (if lit ≠ 0 then vr else 0) ∧
          t.pwm n cg = some (if lit ≠ 0 then vg else 0) ∧
          t.pwm n cb = some (if lit ≠ 0 then vb else 0)) ∧
      (∀ m k : Int, ¬ (m = n ∧ k ∈ segmentChannels) → t.pwm m k = s.pwm m k) := by
  obtain ⟨l0, hl0, b0⟩ := readAt2_digitSegments d 0 hd0 hd1 (by decide) (by decide)
  obtain ⟨l1, hl1, b1⟩ := readAt2_digitSegments d 1 hd0 hd1 (by decide) (by decide)
  obtain ⟨l2, hl2, b2⟩ := readAt2_digitSegments d 2 hd0 hd1 (by decide) (by decide)
  obtain ⟨l3, hl3, b3⟩ := readAt2_digitSegments d 3 hd0 hd1 (by decide) (by decide)
  obtain ⟨l4, hl4, b4⟩ := readAt2_digitSegments d 4 hd0 hd1 (by decide) (by decide)
  obtain ⟨l5, hl5, b5⟩ := readAt2_digitSegments d 5 hd0 hd1 (by decide) (by decide)
  obtain ⟨l6, hl6, b6⟩ := readAt2_digitSegments d 6 hd0 hd1 (by decide) (by decide)
  obtain ⟨t1, e1, c1, a1, d1, w1, n1, p1⟩ := writeDigitStep_pwm s n d 0 r g b 17 16 15 vr vg vb
    l0 hl hn0 hn2 hl0 b0 rfl rfl rfl hvr hvg hvb br bg bb (by decide)
  obtain ⟨t2, e2, c2, a2, d2, w2, n2, p2⟩ := writeDigitStep_pwm t1 n d 1 r g b 22 21 20 vr vg vb
    l1 n1 hn0 hn2 hl1 b1 rfl rfl rfl hvr hvg hvb br bg bb (by decide)
  obtain ⟨t3, e3, c3, a3, d3, w3, n3, p3⟩ := writeDigitStep_pwm t2 n d 2 r g b 26 27 28 vr vg vb
    l2 n2 hn0 hn2 hl2 b2 rfl rfl rfl hvr hvg hvb br bg bb (by decide)
  obtain ⟨t4, e4, c4, a4, d4, w4, n4, p4⟩ := writeDigitStep_pwm t3 n d 3 r g b 1 2 3 vr vg vb
    l3 n3 hn0 hn2 hl3 b3 rfl rfl rfl hvr hvg hvb br bg bb (by decide)
  obtain ⟨t5, e5, c5, a5, d5, w5, n5, p5⟩ := writeDigitStep_pwm t4 n d 4 r g b 4 5 6 vr vg vb
    l4 n4 hn0 hn2 hl4 b4 rfl rfl rfl hvr hvg hvb br bg bb (by decide)
  obtain ⟨t6, e6, c6, a6, d6, w6, n6, p6⟩ := writeDigitStep_pwm t5 n d 5 r g b 9 7 8 vr vg vb
    l5 n5 hn0 hn2 hl5 b5 rfl rfl rfl hvr hvg hvb br bg bb (by decide)
  obtain ⟨t7, e7, c7, a7, d7, w7, n7, p7⟩ := writeDigitStep_pwm t6 n d 6 r g b 14 13 12 vr vg vb
    l6 n6 hn0 hn2 hl6 b6 rfl rfl rfl hvr hvg hvb br bg bb (by decide)
  have hloop : writeDigitSegments.foldlM (Numeral.writeDigitStep n d r g b) s = some t7 := by
    have hs : writeDigitSegments = [0, 1, 2, 3, 4, 5, 6] := by decide
    simp only [hs, List.foldlM_cons, List.foldlM_nil, e1, e2, e3, e4, e5, e6, e7,
      Option.bind_eq_bind, Option.some_bind, Option.pure_def]
  refine ⟨t7, hloop, by rw [c7, c6, c5, c4, c3, c2, c1], by rw [a7, a6, a5, a4, a3, a2, a1],
    by rw [d7, d6, d5, d4, d3, d2, d1], by rw [w7, w6, w5, w4, w3, w2, w1], n7, ?_, ?_⟩
  · intro seg hs0 hs1
    interval_cases seg
    · exact ⟨l0, 17, 16, 15, hl0, b0, rfl, rfl, rfl, by decide, by decide, by decide,
        by simp [p7, p6, p5, p4, p3, p2, p1], by simp [p7, p6, p5, p4, p3, p2, p1],
        by simp [p7, p6, p5, p4, p3, p2, p1]⟩
    · exact ⟨l1, 22, 21, 20, hl1, b1, rfl, rfl, rfl, by decide, by decide, by decide,
        by simp [p7, p6, p5, p4, p3, p2, p1], by simp [p7, p6, p5, p4, p3, p2, p1],
        by simp [p7, p6, p5, p4, p3, p2, p1]⟩
    · exact ⟨l2, 26, 27, 28, hl2, b2, rfl, rfl, rfl, by decide, by decide, by decide,
        by simp [p7, p6, p5, p4, p3, p2, p1], by simp [p7, p6, p5, p4, p3, p2, p1],
        by simp [p7, p6, p5, p4, p3, p2, p1]⟩
    · exact ⟨l3, 1, 2, 3, hl3, b3, rfl, rfl, rfl, by decide, by decide, by decide,
        by simp [p7, p6, p5, p4, p3, p2, p1], by simp [p7, p6, p5, p4, p3, p2, p1],
        by simp [p7, p6, p5, p4, p3, p2, p1]⟩
    · exact ⟨l4, 4, 5, 6, hl4, b4, rfl, rfl, rfl, by decide, by decide, by decide,
        by simp [p7, p6, p5, p4, p3, p2, p1], by simp [p7, p6, p5, p4, p3, p2, p1],
        by simp [p7, p6, p5, p4, p3, p2, p1]⟩
    · exact ⟨l5, 9, 7, 8, hl5, b5, rfl, rfl, rfl, by decide, by decide, by decide,
        by simp [p7, p6, p5, p4, p3, p2, p1], by simp [p7, p6, p5, p4, p3, p2, p1],
        by simp [p7, p6, p5, p4, p3, p2, p1]⟩
    · exact ⟨l6, 14, 13, 12, hl6, b6, rfl, rfl, rfl, by decide, by decide, by decide,
        by simp [p7, p6, p5, p4, p3, p2, p1], by simp [p7, p6, p5, p4, p3, p2, p1],
        by simp [p7, p6, p5, p4, p3, p2, p1]⟩
  · intro m k hk
    have hlist : segmentChannels =
        [17, 16, 15, 22, 21, 20, 26, 27, 28, 1, 2, 3, 4, 5, 6, 9, 7, 8, 14, 13, 12] := by decide
    rw [hlist] at hk
    by_cases hm : m = n
    · subst hm
      simp only [true_and, List.mem_cons, List.mem_singleton, List.not_mem_nil, or_false,
        not_or] at hk
      simp [p7, p6, p5, p4, p3, p2, p1, hk]
    · simp [p7, p6, p5, p4, p3, p2, p1, hm]

set_option maxRecDepth 100000 in
theorem twoNumerals_eq :
    (numeral.addNumeral 0x3e).bind (fun s => s.addNumeral 0x3c) = some twoNumerals := by
  decide

set_option maxRecDepth 100000 in
theorem setup_scans_only_empty_registry_witness :
    (∃ s1, twoNumerals.setup 2 (fun _ => true) = some s1 ∧ s1.count = 2 ∧
      s1.i2cAddresses = [0x3e, 0x3c, 0, 0] ∧ s1.wire.length = 12) ∧
    (∃ s1, numeral.setup 2 (fun a => a == 0x3c || a == 0x3e) = some s1 ∧ s1.count = 2 ∧
      s1.i2cAddresses = [0x3e, 0x3c, 0, 0] ∧ s1.wire.length = 16) := by
  constructor
  · obtain ⟨s1, h1, h2, h3, h4, _⟩ :=
      (setup_scans_only_empty_registry 2 (fun _ => true) twoNumerals (by decide)
        (by decide)).1 (by decide)
    exact ⟨s1, h1, h2, h3, by rw [h4]; decide⟩
  · obtain ⟨s0, s1, h0, h1, h2, h3, h4, h5⟩ :=
      (setup_scans_only_empty_registry 2 (fun a => a == 0x3c || a == 0x3e) numeral (by decide)
        (by decide)).2 (by decide)
    have e0 : numeral.i2cScan (fun a => a == 0x3c || a == 0x3e) = some
        { twoNumerals with wire := [⟨0x3f, []⟩, ⟨0x3e, []⟩, ⟨0x3d, []⟩, ⟨0x3c, []⟩] } := by
      decide
    rw [e0] at h0
    cases h0
    exact ⟨s1, h1, h3, h4, by rw [h5]; decide⟩

set_option maxRecDepth 100000 in
theorem update_flushes_each_registered_witness :
    ∃ s1, twoNumerals.update 2 = some s1 ∧ s1.pwmState = twoNumerals.pwmState ∧
      s1.wire.map (fun t => (t.address, t.data.headD none)) =
        [(0x3e, some 0x2A), (0x3e, some 0x05), (0x3e, some 0x25),
         (0x3c, some 0x2A), (0x3c, some 0x05), (0x3c, some 0x25)] := by
  obtain ⟨s1, h1, _, _, _, h5, h6, _, _⟩ :=
    update_flushes_each_registered 2 twoNumerals (by decide) (by decide)
  exact ⟨s1, h1, h5, by rw [h6]; decide⟩

set_option maxRecDepth 100000 in
/-- C16, as stated, fails: on a driver with one device registered at 0x3c,
`setup` sends, in this order, the reset (0x4F), the PWM array (header 0x05),
the latch (0x25), the LED array (header 0x2A), the PWM frequency (0x4B) and
power on (0x00): the LED mask write follows the PWM write and latch, it does
not precede them. -/
theorem setup_led_write_follows_pwm_write :
    ((numeral.addNumeral 0x3c).bind (fun s => s.setup 2 (fun _ => false))).map
        (fun s => s.wire.map (fun t => (t.address, t.data.headD none)))
      = some [(0x3c, some 0x4F), (0x3c, some 0x05), (0x3c, some 0x25), (0x3c, some 0x2A),
          (0x3c, some 0x4B), (0x3c, some 0x00)] ∧
    ((numeral.addNumeral 0x3c).bind (fun s => s.setup 2 (fun _ => false))).map
        (fun s => s.wire.map (fun t => (t.address, t.data.headD none)))
      ≠ some [(0x3c, some 0x4F), (0x3c, some 0x2A), (0x3c, some 0x05), (0x3c, some 0x25),
          (0x3c, some 0x4B), (0x3c, some 0x00)] := by
  constructor <;> decide

/-- C16 (amended): for each registered device, in registry order, `setup`
issues the bus operations in this order: software reset (register 0x4F,
value 0); then the PWM write and latch (register 0x25, value 0); then the LED
mask write; then PWM frequency (register 0x4B, value 1); then power on
(register 0x00, value 1).  The shadow arrays are unchanged. -/
theorem setup_initialises_in_order (sizeofInt : Nat) (ack : Int → Bool) (s : Numeral)
    (hwf : s.wf) (h4 : s.count ≤ 4) :
    ∃ s0 s1, (if s.count = 0 then s.i2cScan ack else some s) = some s0 ∧
      s.setup sizeofInt ack = some s1 ∧
      s1.wire = s0.wire ++ (List.range s0.count.toNat).flatMap (s0.setupLog sizeofInt) ∧
      s1.ledState = s.ledState ∧ s1.pwmState = s.pwmState ∧
      ∀ k : Nat, s0.addressOf k ≠ 0 →
        s0.setupLog sizeofInt k =
          [⟨s0.addressOf k, cellsFrom [resetRegister, 0] 0 (2 * sizeofInt)⟩,
           ⟨s0.addressOf k, cellsFrom s.pwmState (29 * k) (29 * sizeofInt)⟩,
           ⟨s0.addressOf k, cellsFrom [pwmRegisterUpdate, 0] 0 (2 * sizeofInt)⟩,
           ⟨s0.addressOf k, cellsFrom s.ledState (29 * k) (29 * sizeofInt)⟩,
           ⟨s0.addressOf k, cellsFrom [pwmFrequencyRegister, 1] 0 (2 * sizeofInt)⟩,
           ⟨s0.addressOf k, cellsFrom [shutdownRegister, 1] 0 (2 * sizeofInt)⟩] := by
  have key : ∃ s0, (if s.count = 0 then s.i2cScan ack else some s) = some s0 ∧
      s0.i2cAddresses.length = 4 ∧ s0.count ≤ 4 ∧ s0.ledState = s.ledState ∧
      s0.pwmState = s.pwmState := by
    by_cases hz : s.count = 0
    · obtain ⟨s0, e0, _, _, c4, l0, q1, q2⟩ := i2cScan_from_empty ack s hz hwf.1
      exact ⟨s0, by rw [if_pos hz, e0], l0, c4, q1, q2⟩
    · exact ⟨s, by rw [if_neg hz], hwf.1, h4, rfl, rfl⟩
  obtain ⟨s0, e0, l0, c4, q1, q2⟩ := key
  refine ⟨s0, _, e0, setup_eq_of_scan sizeofInt ack s s0 e0 l0 c4, rfl, q1, q2, ?_⟩
  intro k hk
  simp [Numeral.setupLog, registerWrite_of_ne sizeofInt s0 k _ _ hk, Numeral.ledWrite,
    Numeral.pwmWrite, q1, q2]

set_option maxRecDepth 100000 in
theorem setup_initialises_in_order_witness :
    ∃ s1, twoNumerals.setup 2 (fun _ => false) = some s1 ∧
      s1.wire.map (fun t => (t.address, t.data.headD none)) =
        [(0x3e, some 0x4F), (0x3e, some 0x05), (0x3e, some 0x25), (0x3e, some 0x2A),
         (0x3e, some 0x4B), (0x3e, some 0x00),
         (0x3c, some 0x4F), (0x3c, some 0x05), (0x3c, some 0x25), (0x3c, some 0x2A),
         (0x3c, some 0x4B), (0x3c, some 0x00)] := by
  obtain ⟨s0, s1, h0, h1, h2, _⟩ :=
    setup_initialises_in_order 2 (fun _ => false) twoNumerals (by decide) (by decide)
  have e0 : (if twoNumerals.count = 0 then twoNumerals.i2cScan (fun _ => false)
      else some twoNumerals) = some twoNumerals := by decide
  rw [e0] at h0
  cases h0
  exact ⟨s1, h1, by rw [h2]; decide⟩

theorem cellsFrom_getElem? (mem : List Int) (offset num c : Nat) (h : c < num) :
    (cellsFrom mem offset num)[c]? = some (mem[offset + c]?) := by
  simp [cellsFrom, List.getElem?_map, List.getElem?_range h]

theorem writeDigit_eq (sizeofInt : Nat) (s t : Numeral) (n d r g b a : Int)
    (hl : s.i2cAddresses.length = 4) (hn0 : 0 ≤ n) (hn2 : n < 4)
    (hloop : writeDigitSegments.foldlM (Numeral.writeDigitStep n d r g b) s = some t)
    (ht : t.i2cAddresses = s.i2cAddresses)
    (ha : readAt s.i2cAddresses n = some a) :
    s.writeDigit sizeofInt n d r g b = some { t with
      wire := t.wire ++ (⟨a, cellsFrom t.pwmState (29 * n.toNat) (29 * sizeofInt)⟩ ::
        (if a ≠ 0 then [⟨a, cellsFrom [pwmRegisterUpdate, 0] 0 (2 * sizeofInt)⟩] else [])) } := by
  have hk : n.toNat < 4 := by omega
  have hc : ((n.toNat : Nat) : Int) = n := Int.toNat_of_nonneg hn0
  have hlt : t.i2cAddresses.length = 4 := by rw [ht]; exact hl
  have hat : t.addressOf n.toNat = a := by
    have h1 := readAt_addressOf t n.toNat hlt hk
    rw [hc, ht, ha] at h1
    exact (Option.some.inj h1).symm
  have hlog := _updatePWM_log sizeofInt t n.toNat hlt hk t.wire
  rw [hc] at hlog
  simp only [Numeral.writeDigit, hloop, Option.some_bind]
  rw [show t = { t with wire := t.wire } from rfl, hlog]
  simp [Numeral.pwmWrite, Numeral.registerWrite, hat]

/-- C17: for a device index `n` in `0..3` whose registry entry `a` is
non-zero, a digit in `0..10` and a colour in `0..255`, `writeDigit` adds to
the bus log exactly two transmissions, both to `a`: first the PWM write, whose
cells `0..28` are the PWM shadow cells of device `n` in the final state (the
state in which all seven segments A..G already hold their new values), then
the latch write beginning with register 0x25 and value 0.  No LED write is
issued and the LED shadow array, registry and `count` are unchanged. -/
theorem writeDigit_flushes_after_painting (sizeofInt : Nat) (s : Numeral) (n d r g b a : Int)
    (hwf : s.wf) (hn0 : 0 ≤ n) (hn1 : n ≤ 3) (hd0 : 0 ≤ d) (hd1 : d ≤ 10)
    (hr0 : 0 ≤ r) (hr1 : r ≤ 255) (hg0 : 0 ≤ g) (hg1 : g ≤ 255) (hb0 : 0 ≤ b) (hb1 : b ≤ 255)
    (ha : readAt s.i2cAddresses n = some a) (hne : a ≠ 0) (hsz : 1 ≤ sizeofInt) :
    ∃ s1 vr vg vb, s.writeDigit sizeofInt n d r g b = some s1 ∧
      readAt gamma8 r = some vr ∧ readAt gamma8 g = some vg ∧ readAt gamma8 b = some vb ∧
      s1.wire = s.wire ++
        [⟨a, cellsFrom s1.pwmState (29 * n.toNat) (29 * sizeofInt)⟩,
         ⟨a, cellsFrom [pwmRegisterUpdate, 0] 0 (2 * sizeofInt)⟩] ∧
      (∀ c : Nat, c < 29 →
        (cellsFrom s1.pwmState (29 * n.toNat) (29 * sizeofInt))[c]? = some (s1.pwm n c)) ∧
      (∀ seg : Int, segmentA ≤ seg → seg ≤ segmentG →
        ∃ lit cr cg cb, readAt2 digitSegments d seg = some lit ∧
          readAt2 segmentMap seg 0 = some cr ∧ readAt2 segmentMap seg 1 = some cg ∧
          readAt2 segmentMap seg 2 = some cb ∧
          s1.pwm n cr = some (if lit ≠ 0 then vr else 0) ∧
          s1.pwm n cg = some (if lit ≠ 0 then vg else 0) ∧
          s1.pwm n cb = some (if lit ≠ 0 then vb else 0)) ∧
      (cellsFrom [pwmRegisterUpdate, 0] 0 (2 * sizeofInt))[0]? = some (some 0x25) ∧
      (cellsFrom [pwmRegisterUpdate, 0] 0 (2 * sizeofInt))[1]? = some (some 0) ∧
      s1.ledState = s.ledState ∧ s1.i2cAddresses = s.i2cAddresses ∧ s1.count = s.count := by
  obtain ⟨vr, hvr, br⟩ := readAt_gamma8 r hr0 hr1
  obtain ⟨vg, hvg, bg⟩ := readAt_gamma8 g hg0 hg1
  obtain ⟨vb, hvb, bb⟩ := readAt_gamma8 b hb0 hb1
  have hn2 : n < 4 := by omega
  obtain ⟨t, hloop, tc, ta, tl, tw, tn, tseg, _⟩ :=
    writeDigit_loop s n d r g b vr vg vb hwf.2.2 hn0 hn2 hd0 hd1 hvr hvg hvb br bg bb
  have heq := writeDigit_eq sizeofInt s t n d r g b a hwf.1 hn0 hn2 hloop ta ha
  rw [if_pos hne] at heq
  refine ⟨_, vr, vg, vb, heq, hvr, hvg, hvb, by simp only [tw], ?_, ?_, ?_, ?_, tl, ta, tc⟩
  · intro c hc
    rw [cellsFrom_getElem? _ _ _ _ (by omega)]
    have hin : 0 ≤ n ∧ n < 4 ∧ 0 ≤ (c : Int) ∧ (c : Int) < 29 := ⟨hn0, hn2, by omega, by omega⟩
    simp only [Numeral.pwm, readCell, if_pos hin, Int.toNat_ofNat]
  · intro seg hs0 hs1
    obtain ⟨lit, cr, cg, cb, h1, _, h2, h3, h4, _, _, _, p1, p2, p3⟩ := tseg seg hs0 hs1
    exact ⟨lit, cr, cg, cb, h1, h2, h3, h4, p1, p2, p3⟩
  · rw [cellsFrom_getElem? _ _ _ _ (by omega)]; rfl
  · rw [cellsFrom_getElem? _ _ _ _ (by omega)]; rfl

theorem writeDigit_flushes_after_painting_witness :
    ∃ s1, twoNumerals.writeDigit 2 1 7 255 128 28 = some s1 ∧
      s1.wire.map (fun t => (t.address, t.data.length)) = [(0x3c, 58), (0x3c, 4)] ∧
      s1.wire.map (fun t => t.data[17]?) = [some (s1.pwm 1 17), none] ∧
      s1.wire.map (fun t => t.data[1]?) = [some (s1.pwm 1 1), some (some 0)] := by
  obtain ⟨s1, vr, vg, vb, h1, _, _, _, h5, h6, _, _, h9, _⟩ :=
    writeDigit_flushes_after_painting 2 twoNumerals 1 7 255 128 28 0x3c (by decide) (by decide)
      (by decide) (by decide) (by decide) (by decide) (by decide) (by decide) (by decide)
      (by decide) (by decide) (by decide) (by decide) (by decide)
  have hw : twoNumerals.wire = [] := rfl
  have h17 := h6 17 (by decide)
  have h01 := h6 1 (by decide)
  refine ⟨s1, h1, ?_, ?_, ?_⟩
  · rw [h5, hw]
    simp [cellsFrom]
  · rw [h5, hw]
    simp only [List.nil_append, List.map_cons, List.map_nil, h17]
    simp [cellsFrom]
  · rw [h5, hw]
    simp only [List.nil_append, List.map_cons, List.map_nil, h01, h9]
    simp

theorem segment_intact (s : Numeral) (n seg r g b : Int) (hwf : s.wf) (hi : s.shadowIntact)
    (hn0 : 0 ≤ n) (hn1 : n ≤ 3) (hs0 : 0 ≤ seg) (hs1 : seg ≤ 7)
    (hr0 : 0 ≤ r) (hr1 : r ≤ 255) (hg0 : 0 ≤ g) (hg1 : g ≤ 255) (hb0 : 0 ≤ b) (hb1 : b ≤ 255) :
    ∃ s1, s.segment n seg r g b = some s1 ∧ s1.wf ∧ s1.shadowIntact ∧
      s1.i2cAddresses = s.i2cAddresses ∧ s1.count = s.count ∧ s1.wire = s.wire := by
  obtain ⟨cr, cg, cb, hcr, hcg, hcb, hd⟩ := segmentMap_lookup seg hs0 hs1
  obtain ⟨vr, hvr, br⟩ := readAt_gamma8 r hr0 hr1
  obtain ⟨vg, hvg, bg⟩ := readAt_gamma8 g hg0 hg1
  obtain ⟨vb, hvb, bb⟩ := readAt_gamma8 b hb0 hb1
  obtain ⟨s1, h1, h2, h3, h4, h5, h6, h7⟩ :=
    segment_pwm s n seg r g b cr cg cb vr vg vb hwf.2.2 hn0 (by omega) hcr hcg hcb hvr hvg hvb
      br bg bb hd
  have r1 := segmentMap_range seg 0 cr hcr
  have r2 := segmentMap_range seg 1 cg hcg
  have r3 := segmentMap_range seg 2 cb hcb
  refine ⟨s1, h1, ⟨by rw [h3]; exact hwf.1, by rw [h4]; exact hwf.2.1, h6⟩, ?_, h3, h2, h5⟩
  intro m hm0 hm1
  obtain ⟨q1, q2, q3⟩ := hi m hm0 hm1
  refine ⟨?_, ?_, ?_⟩
  · rw [h7, if_neg (by omega), if_neg (by omega), if_neg (by omega)]; exact q1
  · simp only [Numeral.led, h4] at q2 ⊢; exact q2
  · intro c hc0 hc1
    rw [h7]
    by_cases e1 : m = n ∧ c = cr
    · rw [if_pos e1]; exact ⟨vr, rfl, br⟩
    · rw [if_neg e1]
      by_cases e2 : m = n ∧ c = cg
      · rw [if_pos e2]; exact ⟨vg, rfl, bg⟩
      · rw [if_neg e2]
        by_cases e3 : m = n ∧ c = cb
        · rw [if_pos e3]; exact ⟨vb, rfl, bb⟩
        · rw [if_neg e3]; exact q3 c hc0 hc1

theorem writeDigitStep_intact (s : Numeral) (n d seg r g b : Int) (hwf : s.wf)
    (hi : s.shadowIntact) (hn0 : 0 ≤ n) (hn1 : n ≤ 3) (hd0 : 0 ≤ d) (hd1 : d ≤ 10)
    (hs0 : 0 ≤ seg) (hs1 : seg ≤ 6)
    (hr0 : 0 ≤ r) (hr1 : r ≤ 255) (hg0 : 0 ≤ g) (hg1 : g ≤ 255) (hb0 : 0 ≤ b) (hb1 : b ≤ 255) :
    ∃ s1, Numeral.writeDigitStep n d r g b s seg = some s1 ∧ s1.wf ∧ s1.shadowIntact ∧
      s1.i2cAddresses = s.i2cAddresses ∧ s1.count = s.count ∧ s1.wire = s.wire := by
  obtain ⟨lit, hlit, h01⟩ := readAt2_digitSegments d seg hd0 hd1 hs0 hs1
  rcases h01 with h | h
  · subst h
    obtain ⟨s1, h1, h2⟩ := segment_intact s n seg 0 0 0 hwf hi hn0 hn1 hs0 (by omega)
      (by decide) (by decide) (by decide) (by decide) (by decide) (by decide)
    exact ⟨s1, by simp [Numeral.writeDigitStep, hlit, pgm_read_byte, h1], h2⟩
  · subst h
    obtain ⟨s1, h1, h2⟩ := segment_intact s n seg r g b hwf hi hn0 hn1 hs0 (by omega)
      hr0 hr1 hg0 hg1 hb0 hb1
    exact ⟨s1, by simp [Numeral.writeDigitStep, hlit, pgm_read_byte, h1], h2⟩

theorem writeDigit_loop_intact (n d r g b : Int)
    (hn0 : 0 ≤ n) (hn1 : n ≤ 3) (hd0 : 0 ≤ d) (hd1 : d ≤ 10)
    (hr0 : 0 ≤ r) (hr1 : r ≤ 255) (hg0 : 0 ≤ g) (hg1 : g ≤ 255) (hb0 : 0 ≤ b) (hb1 : b ≤ 255) :
    ∀ (segs : List Int) (s : Numeral), (∀ seg ∈ segs, 0 ≤ seg ∧ seg ≤ 6) → s.wf →
      s.shadowIntact →
      ∃ s1, segs.foldlM (Numeral.writeDigitStep n d r g b) s = some s1 ∧ s1.wf ∧
        s1.shadowIntact ∧ s1.i2cAddresses = s.i2cAddresses ∧ s1.count = s.count ∧
        s1.wire = s.wire
  | [], s, _, hwf, hi => ⟨s, rfl, hwf, hi, rfl, rfl, rfl⟩
  | seg :: segs, s, hs, hwf, hi => by
    have hseg := hs seg (List.mem_cons_self _ _)
    obtain ⟨s1, e1, w1, i1, a1, c1, l1⟩ := writeDigitStep_intact s n d seg r g b hwf hi hn0 hn1
      hd0 hd1 hseg.1 hseg.2 hr0 hr1 hg0 hg1 hb0 hb1
    obtain ⟨s2, e2, w2, i2, a2, c2, l2⟩ := writeDigit_loop_intact n d r g b hn0 hn1 hd0 hd1
      hr0 hr1 hg0 hg1 hb0 hb1 segs s1 (fun x hx => hs x (List.mem_cons_of_mem _ hx)) w1 i1
    refine ⟨s2, ?_, w2, i2, a2.trans a1, c2.trans c1, l2.trans l1⟩
    simp only [List.foldlM_cons, e1, Option.bind_eq_bind, Option.some_bind, e2]

theorem writeDigit_intact (sizeofInt : Nat) (s : Numeral) (n d r g b : Int) (hwf : s.wf)
    (hi : s.shadowIntact) (hn0 : 0 ≤ n) (hn1 : n ≤ 3) (hd0 : 0 ≤ d) (hd1 : d ≤ 10)
    (hr0 : 0 ≤ r) (hr1 : r ≤ 255) (hg0 : 0 ≤ g) (hg1 : g ≤ 255) (hb0 : 0 ≤ b) (hb1 : b ≤ 255) :
    ∃ s1, s.writeDigit sizeofInt n d r g b = some s1 ∧ s1.wf ∧ s1.shadowIntact ∧
      s1.i2cAddresses = s.i2cAddresses ∧ s1.count = s.count := by
  have hsegs : ∀ seg ∈ writeDigitSegments, 0 ≤ seg ∧ seg ≤ 6 := by decide
  obtain ⟨t, e1, w1, i1, a1, c1, _⟩ := writeDigit_loop_intact n d r g b hn0 hn1 hd0 hd1
    hr0 hr1 hg0 hg1 hb0 hb1 writeDigitSegments s hsegs hwf hi
  obtain ⟨s1, e2, p2, l2, c2, a2⟩ := _updatePWM_shadow sizeofInt t n w1.1 hn0 (by omega)
  refine ⟨s1, by simp only [Numeral.writeDigit, e1, Option.some_bind, e2],
    ⟨by rw [a2]; exact w1.1, by rw [l2]; exact w1.2.1, by rw [p2]; exact w1.2.2⟩, ?_,
    a2.trans a1, c2.trans c1⟩
  intro m hm0 hm1
  have := i1 m hm0 hm1
  simpa only [Numeral.pwm, Numeral.led, p2, l2] using this

theorem run_intact (sizeofInt : Nat) :
    ∀ (calls : List Call) (s : Numeral), (∀ c ∈ calls, c.inRange) → s.wf → s.shadowIntact →
      ∃ s1, s.run sizeofInt calls = some s1 ∧ s1.wf ∧ s1.shadowIntact ∧
        s1.i2cAddresses = s.i2cAddresses ∧ s1.count = s.count
  | [], s, _, hwf, hi => ⟨s, rfl, hwf, hi, rfl, rfl⟩
  | c :: calls, s, hc, hwf, hi => by
    have hr := hc c (List.mem_cons_self _ _)
    have step : ∃ s1, s.call sizeofInt c = some s1 ∧ s1.wf ∧ s1.shadowIntact ∧
        s1.i2cAddresses = s.i2cAddresses ∧ s1.count = s.count := by
      cases c with
      | segment n seg r g b =>
        obtain ⟨h1, h2, h3, h4, h5, h6, h7, h8, h9, h10⟩ := hr
        obtain ⟨s1, e, w, i, a, k, _⟩ := segment_intact s n seg r g b hwf hi h1 h2 h3 h4 h5 h6
          h7 h8 h9 h10
        exact ⟨s1, e, w, i, a, k⟩
      | writeDigit n d r g b =>
        obtain ⟨h1, h2, h3, h4, h5, h6, h7, h8, h9, h10⟩ := hr
        exact writeDigit_intact sizeofInt s n d r g b hwf hi h1 h2 h3 h4 h5 h6 h7 h8 h9 h10
    obtain ⟨s1, e1, w1, i1, a1, c1⟩ := step
    obtain ⟨s2, e2, w2, i2, a2, c2⟩ := run_intact sizeofInt calls s1
      (fun x hx => hc x (List.mem_cons_of_mem _ hx)) w1 i1
    refine ⟨s2, ?_, w2, i2, a2.trans a1, c2.trans c1⟩
    unfold Numeral.run at e2 ⊢
    simp only [List.foldlM_cons, e1, Option.bind_eq_bind, Option.some_bind, e2]

theorem numeral_shadowIntact : numeral.shadowIntact := by
  intro n hn0 hn1
  refine ⟨?_, ?_, ?_⟩
  · interval_cases n <;> decide
  · interval_cases n <;> decide
  · intro c hc0 hc1
    refine ⟨0, ?_, by decide, by decide⟩
    interval_cases n <;> interval_cases c <;> decide

/-- C18: in the initial state, and after any sequence of `segment` and
`writeDigit` calls with in-range arguments (from the initial state or from
any well-formed state with intact shadow arrays), every call returns, every
PWM header cell is 0x05, every LED header cell is 0x2A and every PWM channel
cell holds a value in `0..255`.  All 24 entries of `segmentMap` lie in
`1..28` and are pairwise distinct. -/
theorem shadow_state_stays_intact (sizeofInt : Nat) (calls : List Call)
    (hc : ∀ c ∈ calls, c.inRange) :
    numeral.shadowIntact ∧
    (∃ s1, numeral.run sizeofInt calls = some s1 ∧ s1.wf ∧ s1.shadowIntact) ∧
    (∀ (s : Numeral), s.wf → s.shadowIntact →
      ∃ s1, s.run sizeofInt calls = some s1 ∧ s1.wf ∧ s1.shadowIntact) ∧
    (∀ row ∈ segmentMap, ∀ c ∈ row, 1 ≤ c ∧ c ≤ 28) ∧
    segmentMap.flatten.length = 24 ∧ segmentMap.flatten.Nodup := by
  refine ⟨numeral_shadowIntact, ?_, ?_, by decide, by decide, by decide⟩
  · obtain ⟨s1, e, w, i, _⟩ := run_intact sizeofInt calls numeral hc (by decide)
      numeral_shadowIntact
    exact ⟨s1, e, w, i⟩
  · intro s hwf hi
    obtain ⟨s1, e, w, i, _⟩ := run_intact sizeofInt calls s hc hwf hi
    exact ⟨s1, e, w, i⟩

set_option maxRecDepth 100000 in
theorem shadow_state_stays_intact_witness :
    ∃ s1, numeral.run 2 [Call.segment 0 segmentDP 255 0 0, Call.writeDigit 1 8 10 200 30]
        = some s1 ∧
      s1.pwm 0 0 = some 0x05 ∧ s1.pwm 1 0 = some 0x05 ∧ s1.led 1 0 = some 0x2A ∧
      ∃ v, s1.pwm 1 17 = some v ∧ 0 ≤ v ∧ v ≤ 255 := by
  obtain ⟨_, ⟨s1, e, _, i⟩, _⟩ := shadow_state_stays_intact 2
    [Call.segment 0 segmentDP 255 0 0, Call.writeDigit 1 8 10 200 30] (by decide)
  exact ⟨s1, e, (i 0 (by decide) (by decide)).1, (i 1 (by decide) (by decide)).1,
    (i 1 (by decide) (by decide)).2.1, (i 1 (by decide) (by decide)).2.2 17 (by decide)
      (by decide)⟩

/-- C19: started with `0 ≤ count ≤ 4`, `setup` returns for every
acknowledgement function with `0 ≤ count ≤ 4` and well-formed arrays, so no
store past the 4-entry registry occurs.  `addNumeral` with `count ≥ 4` is the
out-of-bounds store `i2cAddresses[count] = address`.  The scan alone reaches
it: on a registry that already holds one address, three acknowledgements bring
`count` to 4 and a fourth acknowledgement performs that store. -/
theorem setup_never_overflows_registry (sizeofInt : Nat) (ack : Int → Bool) (s : Numeral)
    (hwf : s.wf) (h0 : 0 ≤ s.count) (h4 : s.count ≤ 4) :
    (∃ s1, s.setup sizeofInt ack = some s1 ∧ 0 ≤ s1.count ∧ s1.count ≤ 4 ∧ s1.wf) ∧
    (∀ (t : Numeral) (a : Int), 4 ≤ t.count → t.addNumeral a = none) ∧
    ((numeral.addNumeral 0x50).bind (fun t => t.i2cScan (fun a => a != 0x3c))).map
        (fun t => (t.count, t.i2cAddresses)) = some (4, [0x50, 0x3f, 0x3e, 0x3d]) ∧
    (numeral.addNumeral 0x50).bind (fun t => t.i2cScan (fun _ => true)) = none := by
  refine ⟨?_, ?_, by decide, by decide⟩
  · have key : ∃ s0, (if s.count = 0 then s.i2cScan ack else some s) = some s0 ∧
        s0.i2cAddresses.length = 4 ∧ 0 ≤ s0.count ∧ s0.count ≤ 4 ∧
        s0.ledState = s.ledState ∧ s0.pwmState = s.pwmState := by
      by_cases hz : s.count = 0
      · obtain ⟨s0, e0, _, c0, c4, l0, q1, q2⟩ := i2cScan_from_empty ack s hz hwf.1
        exact ⟨s0, by rw [if_pos hz, e0], l0, c0, c4, q1, q2⟩
      · exact ⟨s, by rw [if_neg hz], hwf.1, h0, h4, rfl, rfl⟩
    obtain ⟨s0, e0, l0, c0, c4, q1, q2⟩ := key
    exact ⟨_, setup_eq_of_scan sizeofInt ack s s0 e0 l0 c4, c0, c4,
      ⟨l0, by simp only [q1]; exact hwf.2.1, by simp only [q2]; exact hwf.2.2⟩⟩
  · intro t a ht
    have : ¬ (0 ≤ t.count ∧ t.count < 4) := by omega
    simp [Numeral.addNumeral, this]

theorem setup_never_overflows_registry_witness :
    ∃ s1, numeral.setup 2 (fun _ => true) = some s1 ∧ 0 ≤ s1.count ∧ s1.count ≤ 4 :=
  match (setup_never_overflows_registry 2 (fun _ => true) numeral (by decide) (by decide)
    (by decide)).1 with
  | ⟨s1, h1, h2, h3, _⟩ => ⟨s1, h1, h2, h3⟩

theorem digitSegments_rows_differ (d1 d2 : Int) (h10 : 0 ≤ d1) (h11 : d1 ≤ 10)
    (h20 : 0 ≤ d2) (h21 : d2 ≤ 10) (hne : d1 ≠ d2) :
    ∃ seg l1 l2, 0 ≤ seg ∧ seg ≤ 6 ∧ readAt2 digitSegments d1 seg = some l1 ∧
      readAt2 digitSegments d2 seg = some l2 ∧ ((l1 = 0 ∧ l2 = 1) ∨ (l1 = 1 ∧ l2 = 0)) := by
  interval_cases d1 <;> interval_cases d2 <;>
    first
    | exact absurd rfl hne
    | exact ⟨0, _, _, by decide, by decide, rfl, rfl, by decide⟩
    | exact ⟨1, _, _, by decide, by decide, rfl, rfl, by decide⟩
    | exact ⟨2, _, _, by decide, by decide, rfl, rfl, by decide⟩
    | exact ⟨3, _, _, by decide, by decide, rfl, rfl, by decide⟩
    | exact ⟨4, _, _, by decide, by decide, rfl, rfl, by decide⟩
    | exact ⟨5, _, _, by decide, by decide, rfl, rfl, by decide⟩
    | exact ⟨6, _, _, by decide, by decide, rfl, rfl, by decide⟩

theorem shadow_ext (l1 l2 : List Int) (h1 : l1.length = 116) (h2 : l2.length = 116)
    (h : ∀ m k : Int, readCell l1 m k = readCell l2 m k) : l1 = l2 := by
  apply List.ext_getElem?
  intro i
  by_cases hi : i < 116
  · have hin : 0 ≤ ((i / 29 : Nat) : Int) ∧ ((i / 29 : Nat) : Int) < 4 ∧
        0 ≤ ((i % 29 : Nat) : Int) ∧ ((i % 29 : Nat) : Int) < 29 := by omega
    have := h ((i / 29 : Nat) : Int) ((i % 29 : Nat) : Int)
    simp only [readCell, if_pos hin, Int.toNat_ofNat] at this
    have e : 29 * (i / 29) + i % 29 = i := Nat.div_add_mod i 29
    rw [e] at this
    exact this
  · rw [List.getElem?_eq_none (by omega), List.getElem?_eq_none (by omega)]

theorem writeDigit_cells (sizeofInt : Nat) (s : Numeral) (n d r g b vr vg vb : Int)
    (hwf : s.wf) (hn0 : 0 ≤ n) (hn1 : n ≤ 3) (hd0 : 0 ≤ d) (hd1 : d ≤ 10)
    (hvr : readAt gamma8 r = some vr) (hvg : readAt gamma8 g = some vg)
    (hvb : readAt gamma8 b = some vb)
    (br : 0 ≤ vr ∧ vr ≤ 255) (bg : 0 ≤ vg ∧ vg ≤ 255) (bb : 0 ≤ vb ∧ vb ≤ 255) :
    ∃ s1, s.writeDigit sizeofInt n d r g b = some s1 ∧ s1.pwmState.length = 116 ∧
      (∀ seg : Int, 0 ≤ seg → seg ≤ 6 →
        ∃ lit cr cg cb, readAt2 digitSegments d seg = some lit ∧ (lit = 0 ∨ lit = 1) ∧
          readAt2 segmentMap seg 0 = some cr ∧ readAt2 segmentMap seg 1 = some cg ∧
          readAt2 segmentMap seg 2 = some cb ∧
          cr ∈ segmentChannels ∧ cg ∈ segmentChannels ∧ cb ∈ segmentChannels ∧
          s1.pwm n cr = some (if lit ≠ 0 then vr else 0) ∧
          s1.pwm n cg = some (if lit ≠ 0 then vg else 0) ∧
          s1.pwm n cb = some (if lit ≠ 0 then vb else 0)) ∧
      (∀ m k : Int, ¬ (m = n ∧ k ∈ segmentChannels) → s1.pwm m k = s.pwm m k) := by
  have hn2 : n < 4 := by omega
  obtain ⟨t, hloop, _, ta, _, _, tn, tseg, tframe⟩ :=
    writeDigit_loop s n d r g b vr vg vb hwf.2.2 hn0 hn2 hd0 hd1 hvr hvg hvb br bg bb
  obtain ⟨a, ha⟩ := readAt_i2cAddresses s n hwf.1 hn0 hn2
  exact ⟨_, writeDigit_eq sizeofInt s t n d r g b a hwf.1 hn0 hn2 hloop ta ha, tn, tseg, tframe⟩

theorem segmentChannels_cases (k : Int) (hk : k ∈ segmentChannels) :
    ∃ seg i, 0 ≤ seg ∧ seg ≤ 6 ∧ (i = 0 ∨ i = 1 ∨ i = 2) ∧
      readAt2 segmentMap seg i = some k := by
  have hlist : segmentChannels =
      [17, 16, 15, 22, 21, 20, 26, 27, 28, 1, 2, 3, 4, 5, 6, 9, 7, 8, 14, 13, 12] := by decide
  rw [hlist] at hk
  simp only [List.mem_cons, List.mem_singleton, List.not_mem_nil, or_false] at hk
  rcases hk with h | h | h | h | h | h | h | h | h | h | h | h | h | h | h | h | h | h | h | h | h
    <;> subst h
  · exact ⟨0, 0, by decide, by decide, by decide, rfl⟩
  · exact ⟨0, 1, by decide, by decide, by decide, rfl⟩
  · exact ⟨0, 2, by decide, by decide, by decide, rfl⟩
  · exact ⟨1, 0, by decide, by decide, by decide, rfl⟩
  · exact ⟨1, 1, by decide, by decide, by decide, rfl⟩
  · exact ⟨1, 2, by decide, by decide, by decide, rfl⟩
  · exact ⟨2, 0, by decide, by decide, by decide, rfl⟩
  · exact ⟨2, 1, by decide, by decide, by decide, rfl⟩
  · exact ⟨2, 2, by decide, by decide, by decide, rfl⟩
  · exact ⟨3, 0, by decide, by decide, by decide, rfl⟩
  · exact ⟨3, 1, by decide, by decide, by decide, rfl⟩
  · exact ⟨3, 2, by decide, by decide, by decide, rfl⟩
  · exact ⟨4, 0, by decide, by decide, by decide, rfl⟩
  · exact ⟨4, 1, by decide, by decide, by decide, rfl⟩
  · exact ⟨4, 2, by decide, by decide, by decide, rfl⟩
  · exact ⟨5, 0, by decide, by decide, by decide, rfl⟩
  · exact ⟨5, 1, by decide, by decide, by decide, rfl⟩
  · exact ⟨5, 2, by decide, by decide, by decide, rfl⟩
  · exact ⟨6, 0, by decide, by decide, by decide, rfl⟩
  · exact ⟨6, 1, by decide, by decide, by decide, rfl⟩
  · exact ⟨6, 2, by decide, by decide, by decide, rfl⟩

set_option maxRecDepth 100000 in
theorem gamma8_dark (r : Int) (h0 : 0 ≤ r) (h1 : r ≤ 27) : readAt gamma8 r = some 0 := by
  interval_cases r <;> decide

theorem writeDigit_dark (sizeofInt : Nat) (s : Numeral) (n d r g b : Int) (hwf : s.wf)
    (hn0 : 0 ≤ n) (hn1 : n ≤ 3) (hd0 : 0 ≤ d) (hd1 : d ≤ 10)
    (hr0 : 0 ≤ r) (hr1 : r ≤ 27) (hg0 : 0 ≤ g) (hg1 : g ≤ 27) (hb0 : 0 ≤ b) (hb1 : b ≤ 27) :
    ∃ s1, s.writeDigit sizeofInt n d r g b = some s1 ∧ s1.pwmState.length = 116 ∧
      (∀ seg : Int, 0 ≤ seg → seg ≤ 6 →
        ∃ cr cg cb, readAt2 segmentMap seg 0 = some cr ∧ readAt2 segmentMap seg 1 = some cg ∧
          readAt2 segmentMap seg 2 = some cb ∧
          s1.pwm n cr = some 0 ∧ s1.pwm n cg = some 0 ∧ s1.pwm n cb = some 0) ∧
      (∀ m k : Int, s1.pwm m k = if m = n ∧ k ∈ segmentChannels then some 0 else s.pwm m k) := by
  obtain ⟨s1, e, len, tseg, tframe⟩ := writeDigit_cells sizeofInt s n d r g b 0 0 0 hwf hn0 hn1
    hd0 hd1 (gamma8_dark r hr0 hr1) (gamma8_dark g hg0 hg1) (gamma8_dark b hb0 hb1)
    (by decide) (by decide) (by decide)
  have hseg : ∀ seg : Int, 0 ≤ seg → seg ≤ 6 →
      ∃ cr cg cb, readAt2 segmentMap seg 0 = some cr ∧ readAt2 segmentMap seg 1 = some cg ∧
        readAt2 segmentMap seg 2 = some cb ∧
        s1.pwm n cr = some 0 ∧ s1.pwm n cg = some 0 ∧ s1.pwm n cb = some 0 := by
    intro seg hs0 hs1
    obtain ⟨lit, cr, cg, cb, _, _, h2, h3, h4, _, _, _, p1, p2, p3⟩ := tseg seg hs0 hs1
    exact ⟨cr, cg, cb, h2, h3, h4, by simpa using p1, by simpa using p2, by simpa using p3⟩
  refine ⟨s1, e, len, hseg, ?_⟩
  intro m k
  by_cases hmk : m = n ∧ k ∈ segmentChannels
  · rw [if_pos hmk]
    obtain ⟨rfl, hk⟩ := hmk
    obtain ⟨seg, i, hs0, hs1, hi, hlook⟩ := segmentChannels_cases k hk
    obtain ⟨cr, cg, cb, h2, h3, h4, p1, p2, p3⟩ := hseg seg hs0 hs1
    rcases hi with rfl | rfl | rfl
    · rw [h2] at hlook; cases hlook; exact p1
    · rw [h3] at hlook; cases hlook; exact p2
    · rw [h4] at hlook; cases hlook; exact p3
  · rw [if_neg hmk]; exact tframe m k hmk

/-- C20: for a device index in `0..3`, a colour whose gamma-corrected
components are not all zero, and two different digits in `0..10`, the PWM
shadow arrays after `writeDigit` of the one and of the other, from the same
starting state, differ.  For a colour with `r, g, b` all in `0..27` every
digit leaves the cells of all seven segments A..G at 0 and gives the same PWM
shadow array as the blank digit 10. -/
theorem distinct_digits_display_distinctly (sizeofInt : Nat) (s : Numeral)
    (n d1 d2 r g b vr vg vb : Int) (hwf : s.wf) (hn0 : 0 ≤ n) (hn1 : n ≤ 3)
    (h10 : 0 ≤ d1) (h11 : d1 ≤ 10) (h20 : 0 ≤ d2) (h21 : d2 ≤ 10) (hne : d1 ≠ d2)
    (hvr : readAt gamma8 r = some vr) (hvg : readAt gamma8 g = some vg)
    (hvb : readAt gamma8 b = some vb) (hcol : vr ≠ 0 ∨ vg ≠ 0 ∨ vb ≠ 0) :
    (∃ s1 s2, s.writeDigit sizeofInt n d1 r g b = some s1 ∧
      s.writeDigit sizeofInt n d2 r g b = some s2 ∧ s1.pwmState ≠ s2.pwmState) ∧
    (∀ r0 g0 b0 : Int, 0 ≤ r0 → r0 ≤ 27 → 0 ≤ g0 → g0 ≤ 27 → 0 ≤ b0 → b0 ≤ 27 →
      ∃ s3 s4, s.writeDigit sizeofInt n d1 r0 g0 b0 = some s3 ∧
        s.writeDigit sizeofInt n 10 r0 g0 b0 = some s4 ∧ s3.pwmState = s4.pwmState ∧
        ∀ seg : Int, segmentA ≤ seg → seg ≤ segmentG →
          ∃ cr cg cb, readAt2 segmentMap seg 0 = some cr ∧
            readAt2 segmentMap seg 1 = some cg ∧ readAt2 segmentMap seg 2 = some cb ∧
            s3.pwm n cr = some 0 ∧ s3.pwm n cg = some 0 ∧ s3.pwm n cb = some 0) := by
  constructor
  · have br := gamma8_range vr (readAt_mem gamma8 r vr hvr)
    have bg := gamma8_range vg (readAt_mem gamma8 g vg hvg)
    have bb := gamma8_range vb (readAt_mem gamma8 b vb hvb)
    obtain ⟨s1, e1, _, seg1, _⟩ := writeDigit_cells sizeofInt s n d1 r g b vr vg vb hwf hn0 hn1
      h10 h11 hvr hvg hvb br bg bb
    obtain ⟨s2, e2, _, seg2, _⟩ := writeDigit_cells sizeofInt s n d2 r g b vr vg vb hwf hn0 hn1
      h20 h21 hvr hvg hvb br bg bb
    refine ⟨s1, s2, e1, e2, ?_⟩
    intro heq
    obtain ⟨seg, l1, l2, hs0, hs1, hl1, hl2, hdiff⟩ :=
      digitSegments_rows_differ d1 d2 h10 h11 h20 h21 hne
    obtain ⟨lit1, cr, cg, cb, k1, _, c1, c2, c3, _, _, _, p1, p2, p3⟩ := seg1 seg hs0 hs1
    obtain ⟨lit2, cr2, cg2, cb2, k2, _, c1b, c2b, c3b, _, _, _, q1, q2, q3⟩ := seg2 seg hs0 hs1
    rw [hl1] at k1; rw [hl2] at k2
    rw [c1] at c1b; rw [c2] at c2b; rw [c3] at c3b
    cases k1; cases k2; cases c1b; cases c2b; cases c3b
    simp only [Numeral.pwm, heq] at p1 p2 p3
    simp only [Numeral.pwm] at q1 q2 q3
    rw [q1] at p1; rw [q2] at p2; rw [q3] at p3
    rcases hdiff with ⟨rfl, rfl⟩ | ⟨rfl, rfl⟩ <;> simp at p1 p2 p3 <;>
      rcases hcol with h | h | h <;> simp_all
  · intro r0 g0 b0 hr0 hr1 hg0 hg1 hb0 hb1
    obtain ⟨s3, e3, len3, seg3, cells3⟩ := writeDigit_dark sizeofInt s n d1 r0 g0 b0 hwf hn0 hn1
      h10 h11 hr0 hr1 hg0 hg1 hb0 hb1
    obtain ⟨s4, e4, len4, _, cells4⟩ := writeDigit_dark sizeofInt s n 10 r0 g0 b0 hwf hn0 hn1
      (by decide) (by decide) hr0 hr1 hg0 hg1 hb0 hb1
    refine ⟨s3, s4, e3, e4, ?_, ?_⟩
    · apply shadow_ext _ _ len3 len4
      intro m k
      have h3 := cells3 m k
      have h4 := cells4 m k
      simp only [Numeral.pwm] at h3 h4
      rw [h3, h4]
    · intro seg hs0 hs1
      exact seg3 seg hs0 hs1

set_option maxRecDepth 100000 in
theorem distinct_digits_display_distinctly_witness :
    (∃ s1 s2, numeral.writeDigit 2 0 1 255 0 0 = some s1 ∧
      numeral.writeDigit 2 0 7 255 0 0 = some s2 ∧ s1.pwmState ≠ s2.pwmState) ∧
    (∃ s3 s4, numeral.writeDigit 2 0 1 27 27 27 = some s3 ∧
      numeral.writeDigit 2 0 10 27 27 27 = some s4 ∧ s3.pwmState = s4.pwmState) := by
  have h := distinct_digits_display_distinctly 2 numeral 0 1 7 255 0 0 255 0 0 (by decide)
    (by decide) (by decide) (by decide) (by decide) (by decide) (by decide) (by decide)
    (by decide) (by decide) (by decide) (by decide)
  obtain ⟨s3, s4, e3, e4, heq, _⟩ := h.2 27 27 27 (by decide) (by decide) (by decide)
    (by decide) (by decide) (by decide)
  exact ⟨h.1, s3, s4, e3, e4, heq⟩

end Clueboard
